import Mathlib

/-!
Verification development for the Z-Tide crowd-simulation core.

The definitions below are a shallow embedding of the TypeScript source:
`FlowField` (flood-fill integration field and 8-way descent direction
selection) and the per-tick simulation logic of the canvas component
(agent integration, wall sliding, spatial-hash bucket assignment, wall
editing, wave lifecycle, terrain application).  Typed arrays are
modelled as total functions `Int → Nat` (every access performed by the
source is bounds-checked first, so the extension beyond the array range
is never observed).  JavaScript numbers used for continuous quantities
are modelled as rationals; the square roots the source computes with
`Math.sqrt` are passed in as an explicit argument constrained by a
hypothesis where a theorem needs them.
-/

namespace ZTide

/-! ### FlowField: constants and geometry (FlowField.ts) -/

/-- `INF = 0xffff`, the `Uint16` sentinel for an unreachable cell. -/
def INF : Nat := 0xffff

/-- `FLOW_DIR_NONE = 255`. -/
def FLOW_DIR_NONE : Nat := 255

/-- The 4-connected neighbourhood, in source order. -/
def N4 : List (Int × Int) := [(1, 0), (-1, 0), (0, 1), (0, -1)]

/-- The 8-way direction table, in source order (index = compass direction). -/
def N8 : List (Int × Int) :=
  [(1, 0), (1, 1), (0, 1), (-1, 1), (-1, 0), (-1, -1), (0, -1), (1, -1)]

/-- `N8` with its indices attached, mirroring `for (let dir = 0; dir < N8.length; dir++)`. -/
def N8E : List (Nat × Int × Int) :=
  [(0, 1, 0), (1, 1, 1), (2, 0, 1), (3, -1, 1), (4, -1, 0), (5, -1, -1), (6, 0, -1), (7, 1, -1)]

/-- Cell offset of direction index `k` (the cell `N8[k]` points to). -/
def dirVec (k : Nat) : Int × Int := N8.getD k (0, 0)

/-- `idx(x, y) = y * width + x`. -/
def cellIdx (w : Nat) (x y : Int) : Int := y * (w : Int) + x

/-- `inBounds(x, y)`. -/
def inB (w h : Nat) (x y : Int) : Bool :=
  (0 ≤ x && x < (w : Int)) && (0 ≤ y && y < (h : Int))

/-- `isWall(x, y)` (no bounds check in the source either). -/
def wallAt (w : Nat) (cost : Int → Nat) (x y : Int) : Bool :=
  cost (cellIdx w x y) == 255

/-- `canUseDiagonal(x, y, dx, dy)`: a diagonal step is allowed only when both
orthogonal corner cells are in bounds and not walls. -/
def canUseDiag (w h : Nat) (cost : Int → Nat) (x y dx dy : Int) : Bool :=
  if dx == 0 || dy == 0 then true
  else
    let ax := x + dx
    let ay := y
    let bx := x
    let b2y := y + dy
    if !(inB w h ax ay) || !(inB w h bx b2y) then false
    else !(wallAt w cost ax ay) && !(wallAt w cost bx b2y)

/-- Functional model of a typed-array write. -/
def awr (a : Int → Nat) (i : Int) (v : Nat) : Int → Nat :=
  fun j => if j = i then v else a j

/-! ### FlowField: BFS flood fill (`generate`, step 1) -/

/-- The inner `for` loop of the BFS: relax the 4-neighbours of cell
`(cx, cy)` with candidate distance `nextDist`, updating the integration
map and appending newly improved cells to the queue tail. -/
def bfsRelax (w h : Nat) (cost : Int → Nat) (cx cy : Int) (nextDist : Nat) :
    List (Int × Int) → (Int → Nat) × List Int → (Int → Nat) × List Int
  | [], st => st
  | (dx, dy) :: rest, st =>
    let nx := cx + dx
    let ny := cy + dy
    if inB w h nx ny then
      let ni := cellIdx w nx ny
      if cost ni = 255 then bfsRelax w h cost cx cy nextDist rest st
      else if nextDist < st.1 ni then
        bfsRelax w h cost cx cy nextDist rest (awr st.1 ni nextDist, st.2 ++ [ni])
      else bfsRelax w h cost cx cy nextDist rest st
    else bfsRelax w h cost cx cy nextDist rest st

/-- The `while (head < tail)` loop of the BFS.  The source queue is a FIFO
(`Int32Array` with head/tail cursors); here it is a list popped at the
front with new entries appended at the back.  The fuel argument bounds
the iteration count; every enqueue strictly decreases one cell's
integration value below `INF`, so `width * height * INF + 2` iterations
can never be exhausted before the queue empties. -/
def bfsLoop (w h : Nat) (cost : Int → Nat) : Nat → (Int → Nat) → List Int → (Int → Nat)
  | 0, integ, _ => integ
  | _ + 1, integ, [] => integ
  | fuel + 1, integ, cur :: rest =>
    let curDist := integ cur
    let cx := cur % (w : Int)
    let cy := cur / (w : Int)
    let nextDist := (curDist + 1) % 65536
    let st := bfsRelax w h cost cx cy nextDist N4 (integ, rest)
    bfsLoop w h cost fuel st.1 st.2

/-! ### FlowField: direction selection (`generate`, step 2) -/

/-- The `for (let dir ...)` scan over the 8 neighbours: accumulator is
`(best, bestDir)`, updated whenever an eligible neighbour strictly
improves on `best`. -/
def scanDirs (w h : Nat) (cost integ : Int → Nat) (x y : Int) :
    List (Nat × Int × Int) → Nat × Nat → Nat × Nat
  | [], acc => acc
  | (dir, dx, dy) :: rest, acc =>
    let nx := x + dx
    let ny := y + dy
    if inB w h nx ny then
      if canUseDiag w h cost x y dx dy then
        let nd := integ (cellIdx w nx ny)
        if nd < acc.1 then scanDirs w h cost integ x y rest (nd, dir)
        else scanDirs w h cost integ x y rest acc
      else scanDirs w h cost integ x y rest acc
    else scanDirs w h cost integ x y rest acc

/-- Direction chosen for linear cell index `i` (walls and cells with
integration `INF` or `0` keep `FLOW_DIR_NONE`). -/
def selectDir (w h : Nat) (cost integ : Int → Nat) (i : Int) : Nat :=
  if cost i = 255 then FLOW_DIR_NONE
  else
    let d := integ i
    if d = INF then FLOW_DIR_NONE
    else if d = 0 then FLOW_DIR_NONE
    else
      let x := i % (w : Int)
      let y := i / (w : Int)
      (scanDirs w h cost integ x y N8E (d, FLOW_DIR_NONE)).2

/-! ### FlowField: the class -/

/-- The `FlowField` class state. -/
structure FlowField where
  width : Nat
  height : Nat
  cost : Int → Nat
  integration : Int → Nat
  direction : Int → Nat
  targetX : Int
  targetY : Int

/-- `new FlowField({width, height})` followed by `clear()`. -/
def mkFlowField (w h : Nat) : FlowField where
  width := w
  height := h
  cost := fun _ => 0
  integration := fun _ => INF
  direction := fun _ => FLOW_DIR_NONE
  targetX := 0
  targetY := 0

def FlowField.idx (f : FlowField) (x y : Int) : Int := cellIdx f.width x y

def FlowField.inBounds (f : FlowField) (x y : Int) : Bool := inB f.width f.height x y

def FlowField.isWall (f : FlowField) (x y : Int) : Bool := wallAt f.width f.cost x y

def FlowField.canUseDiagonal (f : FlowField) (x y dx dy : Int) : Bool :=
  canUseDiag f.width f.height f.cost x y dx dy

/-- `setWall(x, y, wall)`. -/
def FlowField.setWall (f : FlowField) (x y : Int) (wall : Bool) : FlowField :=
  { f with cost := awr f.cost (f.idx x y) (if wall then 255 else 0) }

/-- `generate(targetX, targetY)`: record the target, reset integration and
direction, early-return on an invalid target, otherwise flood-fill from
the target and pick descent directions. -/
def FlowField.generate (f : FlowField) (tx ty : Int) : FlowField :=
  let base : FlowField :=
    { f with
      targetX := tx
      targetY := ty
      integration := fun _ => INF
      direction := fun _ => FLOW_DIR_NONE }
  if !(f.inBounds tx ty) then base
  else if f.isWall tx ty then base
  else
    let startIdx := f.idx tx ty
    let integ0 := awr (fun _ => INF) startIdx 0
    let integ := bfsLoop f.width f.height f.cost (f.width * f.height * INF + 2) integ0 [startIdx]
    { base with
      integration := integ
      direction := fun i =>
        if 0 ≤ i ∧ i < ((f.width * f.height : Nat) : Int) then
          selectDir f.width f.height f.cost integ i
        else FLOW_DIR_NONE }

/-- Integration value at a cell, `integration[idx(x, y)]`. -/
def FlowField.cellVal (f : FlowField) (p : Int × Int) : Nat := f.integration (f.idx p.1 p.2)

/-- Follow the decoded direction of the current cell for one grid step
(identity when the cell's direction is `FLOW_DIR_NONE`). -/
def FlowField.stepCell (f : FlowField) (p : Int × Int) : Int × Int :=
  let k := f.direction (f.idx p.1 p.2)
  if k = FLOW_DIR_NONE then p
  else (p.1 + (dirVec k).1, p.2 + (dirVec k).2)

/-- Intermediate accumulator states of the direction scan that carry an
actual candidate: the stored direction is an `N8` index whose neighbour
is in bounds, diagonal-eligible, and holds the accumulator's `best`
value, strictly below the cell's own integration value `d0`. -/
def GoodAcc (w h : Nat) (cost integ : Int → Nat) (x y : Int) (d0 : Nat) (acc : Nat × Nat) : Prop :=
  ∃ k dx dy, (k, dx, dy) ∈ N8E ∧ acc.2 = k ∧ inB w h (x + dx) (y + dy) = true ∧
    canUseDiag w h cost x y dx dy = true ∧
    integ (cellIdx w (x + dx) (y + dy)) = acc.1 ∧ acc.1 < d0

/-- Concrete 3×3 all-walkable field used to instantiate theorems. -/
def demoOpen3 : FlowField := mkFlowField 3 3

/-- Concrete 3×3 field with a wall painted at (1, 1). -/
def demoWall3 : FlowField := (mkFlowField 3 3).setWall 1 1 true

/-! ### Canvas simulation core (ZTideCanvas.tsx)

Continuous quantities (positions, velocities, times) are rationals.  The
two `Math.sqrt` call sites of the source (speed clamping and separation)
take the square root as an explicit argument `s`; theorems that depend
on its value constrain it by `s * s = …` and `0 ≤ s`. -/

/-- `clamp(v, min, max)` on rationals. -/
def clampQ (v lo hi : ℚ) : ℚ := max lo (min hi v)

/-- `clamp(v, min, max)` applied to integer-valued quantities (bucket indices). -/
def clampZ (v lo hi : Int) : Int := max lo (min hi v)

/-- `const speed = 52` (flow-attraction base speed). -/
def speed : ℚ := 52

/-- `const damping = 0.86`. -/
def damping : ℚ := 0.86

/-- `const maxSpeed = 180`. -/
def maxSpeed : ℚ := 180

/-- `DIR_TO_VEC`, the 8 decoded unit vectors (source literal decimals). -/
def DIR_TO_VEC : List (ℚ × ℚ) :=
  [(1, 0), (0.70710678, 0.70710678), (0, 1), (-0.70710678, 0.70710678),
   (-1, 0), (-0.70710678, -0.70710678), (0, -1), (0.70710678, -0.70710678)]

/-- `const dt = Math.min(0.05, Math.max(0.001, frameMs / 1000))` in the ticker. -/
def dtClamp (frameMs : ℚ) : ℚ := min 0.05 (max 0.001 (frameMs / 1000))

/-- Screen-space layout of the grid: `offsetX`, `offsetY`, `cellPx`. -/
structure Layout where
  offsetX : ℚ
  offsetY : ℚ
  cellPx : ℚ

/-- `const radius = Math.max(2, cellPx * 0.18)`. -/
def agentRadius (cellPx : ℚ) : ℚ := max 2 (cellPx * 0.18)

/-- `const bucketSize = Math.max(radius * 3, cellPx * 0.6)`. -/
def bucketSize (cellPx : ℚ) : ℚ := max (agentRadius cellPx * 3) (cellPx * 0.6)

/-- `const desired = radius * 1.85` (separation radius). -/
def desiredSep (cellPx : ℚ) : ℚ := agentRadius cellPx * 1.85

/-- `bucketsX = Math.max(1, Math.ceil((width * cellPx) / bucketSize))`. -/
def bucketsXOf (w : Nat) (cellPx : ℚ) : Int :=
  max 1 ⌈((w : ℚ) * cellPx) / bucketSize cellPx⌉

/-- Bucket index of a grid-relative coordinate:
`clamp(Math.floor(r / bucketSize), 0, buckets - 1)`. -/
def bucketIndex (bSize : ℚ) (buckets : Int) (r : ℚ) : Int :=
  clampZ ⌊r / bSize⌋ 0 (buckets - 1)

/-- One candidate pair of the separation scan: repulsion contributed by agent
`j` at `(xj, yj)` to the agent at `(x, y)`; zero unless the exact squared
distance is in `(0.0001, desired²)`.  `s` stands for `Math.sqrt(d2)`. -/
def sepContribution (desired x y xj yj s : ℚ) : ℚ × ℚ :=
  let dx := x - xj
  let dy := y - yj
  let d2 := dx * dx + dy * dy
  if 0.0001 < d2 ∧ d2 < desired * desired then
    (dx * (1 / s) * ((desired - s) * 28), dy * (1 / s) * ((desired - s) * 28))
  else (0, 0)

/-- `vx = velX[i] * damping + ax * dt` (and the y component). -/
def stepVelocity (vx vy ax ay dt : ℚ) : ℚ × ℚ :=
  (vx * damping + ax * dt, vy * damping + ay * dt)

/-- Speed clamp: when `sp2 > maxSpeed²` both components are scaled by
`maxSpeed / Math.sqrt(sp2)`; `s` stands for that square root. -/
def clampSpeed (vx vy s : ℚ) : ℚ × ℚ :=
  if maxSpeed * maxSpeed < vx * vx + vy * vy then
    (vx * (maxSpeed / s), vy * (maxSpeed / s))
  else (vx, vy)

/-- Semi-implicit Euler slice of `updateSwarm`: new velocity from damped old
velocity plus acceleration times `dt`, clamped; new position advances by the
new velocity (the source adds `vx` itself, not `vx * dt`). -/
def integrate (x y vx vy ax ay dt s : ℚ) : (ℚ × ℚ) × (ℚ × ℚ) :=
  let v1 := stepVelocity vx vy ax ay dt
  let v2 := clampSpeed v1.1 v1.2 s
  ((x + v2.1, y + v2.2), v2)

/-- Flow-attraction acceleration of the agent's current cell. -/
def flowAccel (f : FlowField) (gx gy : Int) : ℚ × ℚ :=
  if f.inBounds gx gy then
    let dir := f.direction (f.idx gx gy)
    if dir ≠ FLOW_DIR_NONE then
      let v := DIR_TO_VEC.getD dir (0, 0)
      (v.1 * speed, v.2 * speed)
    else (0, 0)
  else (0, 0)

/-- One cardinal probe of the crowd-pressure neighbour search (`c < bestCount`
updates the running best). -/
def pressProbe (f : FlowField) (cnt : Int → Nat) (gx gy ddx ddy : Int)
    (best : Int × Int × Int) : Int × Int × Int :=
  if f.inBounds (gx + ddx) (gy + ddy) && !f.isWall (gx + ddx) (gy + ddy) then
    let c := (cnt (f.idx (gx + ddx) (gy + ddy)) : Int)
    if c < best.1 then (c, ddx, ddy) else best
  else best

/-- Crowd-pressure acceleration: when the current cell's occupancy exceeds the
threshold, push toward the least-occupied walkable cardinal neighbour with
magnitude `min(12, excess) * pressureStrength * 12`. -/
def pressureAccel (f : FlowField) (cnt : Int → Nat) (tIn : Int) (pStr : ℚ)
    (gx gy : Int) : ℚ × ℚ :=
  if f.inBounds gx gy && !f.isWall gx gy then
    let threshold : Int := max 1 tIn
    let here : Int := (cnt (f.idx gx gy) : Int)
    if threshold < here then
      let best := pressProbe f cnt gx gy 0 (-1)
        (pressProbe f cnt gx gy 0 1
          (pressProbe f cnt gx gy (-1) 0
            (pressProbe f cnt gx gy 1 0 (here, 0, 0))))
      if best.2.1 ≠ 0 ∨ best.2.2 ≠ 0 then
        let delta := here - best.1
        let push := ((min 12 delta : Int) : ℚ) * pStr * 12
        ((best.2.1 : ℚ) * push, (best.2.2 : ℚ) * push)
      else (0, 0)
    else (0, 0)
  else (0, 0)

/-- Result of one agent's update in `updateSwarm`: leave the canvas (edge
respawn), reach the base (hp decrement plus edge respawn), or commit a new
position and velocity.  The respawn positions themselves are randomized in the
source and not modelled. -/
inductive TickOutcome
  | respawnEdge
  | reachBase
  | move (x y vx vy : ℚ)
deriving DecidableEq

/-- Tail of the agent update, from the tentative position `(nx, ny)` and
clamped velocity `(vx2, vy2)` on: canvas-bounds respawn, base capture,
axis-separated wall sliding, commit. -/
def resolveMove (f : FlowField) (L : Layout) (W H : ℚ) (x y nx ny vx2 vy2 : ℚ) :
    TickOutcome :=
  if nx < 0 ∨ W < nx ∨ ny < 0 ∨ H < ny then TickOutcome.respawnEdge
  else
    let baseX := L.offsetX + ((f.targetX : ℚ) + 0.5) * L.cellPx
    let baseY := L.offsetY + ((f.targetY : ℚ) + 0.5) * L.cellPx
    let baseRadius := max 6 (L.cellPx * 0.55)
    let bdx := nx - baseX
    let bdy := ny - baseY
    if bdx * bdx + bdy * bdy < baseRadius * baseRadius then TickOutcome.reachBase
    else
      let ngx := ⌊(nx - L.offsetX) / L.cellPx⌋
      let ngy := ⌊(ny - L.offsetY) / L.cellPx⌋
      if f.inBounds ngx ngy && f.isWall ngx ngy then
        let tryX := ⌊(nx - L.offsetX) / L.cellPx⌋
        let tryY := ⌊(y - L.offsetY) / L.cellPx⌋
        let sx := if f.inBounds tryX tryY && !f.isWall tryX tryY then nx else x
        let tryX2 := ⌊(sx - L.offsetX) / L.cellPx⌋
        let tryY2 := ⌊(ny - L.offsetY) / L.cellPx⌋
        let sy := if f.inBounds tryX2 tryY2 && !f.isWall tryX2 tryY2 then ny else y
        TickOutcome.move sx sy (vx2 * 0.35) (vy2 * 0.35)
      else TickOutcome.move nx ny vx2 vy2

/-- One agent's per-tick update (`updateSwarm`, steering + integration +
bounds/base checks + axis-separated wall sliding).  `sepX`, `sepY` are the
accumulated separation sums over the 3×3 bucket scan (they depend on the other
agents and are passed in), `cnt` is the `cellCount` occupancy array, `tIn` the
density threshold, `pStr` the pressure strength, and `s` stands for
`Math.sqrt` of the squared speed of the damped-plus-accelerated velocity. -/
def agentTick (f : FlowField) (L : Layout) (W H : ℚ) (cnt : Int → Nat) (tIn : Int)
    (pStr sepX sepY x y vx vy dt s : ℚ) : TickOutcome :=
  let gx := ⌊(x - L.offsetX) / L.cellPx⌋
  let gy := ⌊(y - L.offsetY) / L.cellPx⌋
  let aF := flowAccel f gx gy
  let aP := pressureAccel f cnt tIn pStr gx gy
  let ax := aF.1 + aP.1 + sepX
  let ay := aF.2 + aP.2 + sepY
  let r := integrate x y vx vy ax ay dt s
  resolveMove f L W H x y r.1.1 r.1.2 r.2.1 r.2.2

/-! ### Wave lifecycle (`startWave`, ticker) -/

/-- `waveDurationMs = 35_000`. -/
def waveDurationMs : ℚ := 35000

/-- Wave/base/combat scalar state of the canvas closure. -/
structure WaveState where
  wave : Nat
  waveActive : Bool
  baseHp : Int
  baseHpMax : Int
  gold : Int
  fireCooldown : ℚ
  waveEndsAt : ℚ

/-- `startWave()`: processed unconditionally on every trigger of the
`waveToken` effect — there is no guard on `waveActive` (the source also
reassigns `updateSwarm = rebuildSwarm()`, reinitializing the agent pool, which
is outside the scalar state modelled here). -/
def startWave (now : ℚ) (s : WaveState) : WaveState :=
  { s with
    wave := s.wave + 1
    waveActive := true
    baseHp := s.baseHpMax
    fireCooldown := 0
    waveEndsAt := now + waveDurationMs }

/-- Concrete mid-wave state (wave running, some damage taken). -/
def demoWaveActive : WaveState :=
  { wave := 3, waveActive := true, baseHp := 50, baseHpMax := 100,
    gold := 2, fireCooldown := 0.05, waveEndsAt := 30000 }

/-! ### Wall editor and terrain application -/

/-- Cell-level wall edit (`editAtClient` after the pointer-to-cell transform):
bounds check, target-cell rejection, gold gate during an active wave, wall
write, gold decrement, synchronous regeneration. -/
def editAtCell (f : FlowField) (gold : Int) (waveActive isErase : Bool)
    (gx gy : Int) : FlowField × Int :=
  if !(f.inBounds gx gy) then (f, gold)
  else if gx = f.targetX ∧ gy = f.targetY then (f, gold)
  else if waveActive = true ∧ isErase = false ∧ gold ≤ 0 then (f, gold)
  else
    let f1 := f.setWall gx gy (!isErase)
    let gold1 := if waveActive = true ∧ isErase = false then max 0 (gold - 1) else gold
    (f1.generate f1.targetX f1.targetY, gold1)

/-- `editAtClient`: map client coordinates through the canvas rectangle and
renderer resolution to a grid cell, then edit that cell. -/
def editAtClient (f : FlowField) (gold : Int) (waveActive isErase : Bool) (L : Layout)
    (rectLeft rectTop rectW rectH rw rh clientX clientY : ℚ) : FlowField × Int :=
  let x := (clientX - rectLeft) * (rw / rectW)
  let y := (clientY - rectTop) * (rh / rectH)
  let gx := ⌊(x - L.offsetX) / L.cellPx⌋
  let gy := ⌊(y - L.offsetY) / L.cellPx⌋
  editAtCell f gold waveActive isErase gx gy

/-- The 3×3 offsets of `ensureBaseAndEdgeOpen`, in loop order (`dy` outer). -/
def nbr9 : List (Int × Int) :=
  [(-1, -1), (0, -1), (1, -1), (-1, 0), (0, 0), (1, 0), (-1, 1), (0, 1), (1, 1)]

/-- One step of the 3×3 loop of `ensureBaseAndEdgeOpen`: clear the wall at
offset `d` from the centre if that cell is in bounds. -/
def openCell (tx ty : Int) (g : FlowField) (d : Int × Int) : FlowField :=
  if g.inBounds (tx + d.1) (ty + d.2) then g.setWall (tx + d.1) (ty + d.2) false else g

/-- One step of the horizontal border loop: clear column `x` of the top and
bottom border rows. -/
def openRow (g : FlowField) (x : Nat) : FlowField :=
  (g.setWall (x : Int) 0 false).setWall (x : Int) ((g.height : Int) - 1) false

/-- One step of the vertical border loop: clear row `y` of the left and right
border columns. -/
def openColumn (g : FlowField) (y : Nat) : FlowField :=
  (g.setWall 0 (y : Int) false).setWall ((g.width : Int) - 1) (y : Int) false

/-- `ensureBaseAndEdgeOpen()`: force the 3×3 block around the grid centre and
all border rows/columns walkable. -/
def ensureBaseAndEdgeOpen (f : FlowField) : FlowField :=
  let tx : Int := ((f.width / 2 : Nat) : Int)
  let ty : Int := ((f.height / 2 : Nat) : Int)
  let f1 := nbr9.foldl (openCell tx ty) f
  let f2 := (List.range f1.width).foldl openRow f1
  (List.range f2.height).foldl openColumn f2

/-- The invariant C9 maintains: positive dimensions, target at the grid
centre, target cell walkable. -/
def targetInv (f : FlowField) : Prop :=
  0 < f.width ∧ 0 < f.height ∧ f.targetX = ((f.width / 2 : Nat) : Int) ∧
    f.targetY = ((f.height / 2 : Nat) : Int) ∧
    f.cost (cellIdx f.width f.targetX f.targetY) ≠ 255

/-- Border-or-base region: the cells `ensureBaseAndEdgeOpen` forces walkable. -/
def onBorderOrBase (w h : Nat) (x y : Int) : Prop :=
  x = 0 ∨ x = (w : Int) - 1 ∨ y = 0 ∨ y = (h : Int) - 1 ∨
    (((w / 2 : Nat) : Int) - 1 ≤ x ∧ x ≤ ((w / 2 : Nat) : Int) + 1 ∧
     ((h / 2 : Nat) : Int) - 1 ≤ y ∧ y ≤ ((h / 2 : Nat) : Int) + 1)

/-- "Only zeroes were written": relation between a field and the result of a
sequence of `setWall … false` calls on it (dimensions and target unchanged,
every cost either kept or set to 0, zeroes preserved). -/
def zeroExtends (g g' : FlowField) : Prop :=
  g'.width = g.width ∧ g'.height = g.height ∧ g'.targetX = g.targetX ∧
    g'.targetY = g.targetY ∧ (∀ j, g'.cost j = g.cost j ∨ g'.cost j = 0) ∧
    (∀ j, g.cost j = 0 → g'.cost j = 0)

/-- Grid-mutating operations the canvas performs on the flow field and gold
counter after initialization: pointer edits, the three terrain paths of
`applyPilot` (OSM grid delivered, fetch failure, pilot cleared), `setGridSize`,
and the combat gold award (`gold += 1` on a lethal hit). -/
inductive CanvasOp
  | edit (waveActive isErase : Bool) (gx gy : Int)
  | pilotApply (len : Nat) (grid : Int → Nat)
  | pilotFail
  | pilotClear
  | resize (n : Int)
  | earnGold

/-- Apply one canvas operation.  `pilotApply` installs the fetched cost array
only when its length matches (otherwise all-walkable), then forces base and
edges open and regenerates from the centre; `pilotFail`/`pilotClear` reset to
all-walkable the same way; `resize` clamps to 24..128 and reallocates. -/
def applyOp (st : FlowField × Int) (op : CanvasOp) : FlowField × Int :=
  match op with
  | .edit wa er gx gy => editAtCell st.1 st.2 wa er gx gy
  | .pilotApply len grid =>
      let f := st.1
      let f1 : FlowField :=
        { f with cost := if len = f.width * f.height then grid else fun _ => 0 }
      let f2 := ensureBaseAndEdgeOpen f1
      (f2.generate ((f2.width / 2 : Nat) : Int) ((f2.height / 2 : Nat) : Int), st.2)
  | .pilotFail =>
      let f1 : FlowField := { st.1 with cost := fun _ => 0 }
      let f2 := ensureBaseAndEdgeOpen f1
      (f2.generate ((f2.width / 2 : Nat) : Int) ((f2.height / 2 : Nat) : Int), st.2)
  | .pilotClear =>
      let f1 : FlowField := { st.1 with cost := fun _ => 0 }
      let f2 := ensureBaseAndEdgeOpen f1
      (f2.generate ((f2.width / 2 : Nat) : Int) ((f2.height / 2 : Nat) : Int), st.2)
  | .resize n =>
      let size := (max 24 (min 128 n)).toNat
      let f := mkFlowField size size
      (f.generate ((size / 2 : Nat) : Int) ((size / 2 : Nat) : Int), st.2)
  | .earnGold => (st.1, st.2 + 1)

/-- Canvas state at mount: fresh all-walkable field of the configured size,
regenerated from the centre (`rebuildField`), gold 0. -/
def initCanvas (n : Nat) : FlowField × Int :=
  ((mkFlowField n n).generate ((n / 2 : Nat) : Int) ((n / 2 : Nat) : Int), 0)

/-- A reachable canvas state: mount a 5×5 grid (target at its centre (2, 2))
and paint a wall at cell (1, 1) through the editor while no wave is active. -/
def demoWalled5 : FlowField := (editAtCell (initCanvas 5).1 0 false false 1 1).1

/-- Total BFS work bound: the sum of all in-grid integration values plus the
queue length.  Every loop iteration strictly decreases it, so it bounds the
number of iterations the flood fill can make. -/
def bfsMeasure (w h : Nat) (integ : Int → Nat) (q : List Int) : Nat :=
  Finset.sum (Finset.range (w * h)) (fun j => integ ((j : Nat) : Int)) + q.length

/-! ### Arithmetic and list helper lemmas -/

lemma awr_self (a : Int → Nat) (i : Int) (v : Nat) : awr a i v i = v := by
  simp [awr]

lemma awr_other (a : Int → Nat) {i j : Int} (v : Nat) (h : j ≠ i) : awr a i v j = a j := by
  simp [awr, h]

lemma inB_iff {w h : Nat} {x y : Int} :
    inB w h x y = true ↔ 0 ≤ x ∧ x < (w : Int) ∧ 0 ≤ y ∧ y < (h : Int) := by
  simp [inB, and_assoc]

lemma wallAt_false_iff {w : Nat} {cost : Int → Nat} {x y : Int} :
    wallAt w cost x y = false ↔ cost (cellIdx w x y) ≠ 255 := by
  simp [wallAt]

lemma wallAt_true_iff {w : Nat} {cost : Int → Nat} {x y : Int} :
    wallAt w cost x y = true ↔ cost (cellIdx w x y) = 255 := by
  simp [wallAt]

lemma cellIdx_decode {w h : Nat} {x y : Int} (hb : inB w h x y = true) :
    cellIdx w x y % (w : Int) = x ∧ cellIdx w x y / (w : Int) = y := by
  rw [inB_iff] at hb
  obtain ⟨hx0, hxw, hy0, hyh⟩ := hb
  have hrw : cellIdx w x y = x + (w : Int) * y := by rw [cellIdx]; ring
  have hw0 : (w : Int) ≠ 0 := by omega
  constructor
  · rw [hrw, Int.add_mul_emod_self_left, Int.emod_eq_of_lt hx0 hxw]
  · rw [hrw, Int.add_mul_ediv_left _ _ hw0, Int.ediv_eq_zero_of_lt hx0 hxw, zero_add]

lemma cellIdx_inj {w h : Nat} {x y x' y' : Int} (h1 : inB w h x y = true)
    (h2 : inB w h x' y' = true) (he : cellIdx w x y = cellIdx w x' y') :
    x = x' ∧ y = y' := by
  have d1 := cellIdx_decode h1
  have d2 := cellIdx_decode h2
  exact ⟨by rw [← d1.1, he, d2.1], by rw [← d1.2, he, d2.2]⟩

lemma cellIdx_range {w h : Nat} {x y : Int} (hb : inB w h x y = true) :
    0 ≤ cellIdx w x y ∧ cellIdx w x y < ((w * h : Nat) : Int) := by
  rw [inB_iff] at hb
  obtain ⟨hx0, hxw, hy0, hyh⟩ := hb
  rw [cellIdx]
  push_cast
  constructor
  · nlinarith
  · nlinarith [mul_le_mul_of_nonneg_right (by omega : y ≤ (h : Int) - 1)
      (by positivity : (0 : Int) ≤ (w : Int))]

lemma idx_decompose {w h : Nat} {i : Int} (h0 : 0 ≤ i) (hn : i < ((w * h : Nat) : Int)) :
    inB w h (i % (w : Int)) (i / (w : Int)) = true ∧
      cellIdx w (i % (w : Int)) (i / (w : Int)) = i := by
  rcases Nat.eq_zero_or_pos w with hw | hw
  · subst hw; simp at hn; omega
  have hwi : (0 : Int) < (w : Int) := by exact_mod_cast hw
  constructor
  · rw [inB_iff]
    refine ⟨Int.emod_nonneg i (by omega), Int.emod_lt_of_pos i hwi,
      Int.ediv_nonneg h0 (le_of_lt hwi), ?_⟩
    rw [Int.ediv_lt_iff_lt_mul hwi]
    push_cast at hn
    nlinarith
  · rw [cellIdx]
    have := Int.ediv_add_emod i (w : Int)
    linarith

lemma N4_spec : ∀ d ∈ N4, ((-d.1, -d.2) ∈ N4) ∧ (d.1 ≠ 0 ∨ d.2 ≠ 0) := by decide

lemma N4_canUseDiag (w h : Nat) (cost : Int → Nat) (x y : Int) :
    ∀ d ∈ N4, canUseDiag w h cost x y d.1 d.2 = true := by
  intro d hd
  fin_cases hd <;> rfl

lemma N4_to_N8E : ∀ d ∈ N4, ∃ k, (k, d.1, d.2) ∈ N8E := by
  intro d hd
  fin_cases hd
  · exact ⟨0, by decide⟩
  · exact ⟨4, by decide⟩
  · exact ⟨2, by decide⟩
  · exact ⟨6, by decide⟩

lemma N8E_spec : ∀ e ∈ N8E, dirVec e.1 = (e.2.1, e.2.2) ∧ e.1 < 8 := by decide

/-! ### BFS invariants

`BfsInv` collects what the flood fill maintains about the integration
map: values are bounded by `INF`, the target is the unique cell with
value `0`, walls keep `INF`, and every cell holding a finite positive
value has a strictly smaller 4-neighbour that is in bounds and walkable
(the parent that first assigned it, or a later improvement of it). -/

structure BfsInv (w h : Nat) (cost : Int → Nat) (start : Int) (integ : Int → Nat) : Prop where
  le_inf : ∀ i, integ i ≤ INF
  start_zero : integ start = 0
  zero_eq_start : ∀ i, integ i = 0 → i = start
  wall_inf : ∀ i, cost i = 255 → integ i = INF
  descent : ∀ x y, inB w h x y = true → integ (cellIdx w x y) < INF →
      0 < integ (cellIdx w x y) →
      ∃ d ∈ N4, inB w h (x + d.1) (y + d.2) = true ∧
        cost (cellIdx w (x + d.1) (y + d.2)) ≠ 255 ∧
        integ (cellIdx w (x + d.1) (y + d.2)) < integ (cellIdx w x y)

/-- Every queued index decomposes into in-bounds coordinates and holds a
finite value on a walkable cell. -/
def QueueOk (w h : Nat) (cost : Int → Nat) (integ : Int → Nat) (q : List Int) : Prop :=
  ∀ c ∈ q, (∃ x y, inB w h x y = true ∧ c = cellIdx w x y) ∧ integ c < INF ∧ cost c ≠ 255

lemma bfsRelax_spec (w h : Nat) (cost : Int → Nat) (start : Int) (cx cy : Int) (curDist : Nat)
    (hcb : inB w h cx cy = true) (hcw : cost (cellIdx w cx cy) ≠ 255) (hcd : curDist < INF) :
    ∀ ds : List (Int × Int), (∀ d ∈ ds, d ∈ N4) →
      ∀ integ q, BfsInv w h cost start integ → QueueOk w h cost integ q →
        integ (cellIdx w cx cy) ≤ curDist →
        BfsInv w h cost start (bfsRelax w h cost cx cy (curDist + 1) ds (integ, q)).1 ∧
          QueueOk w h cost (bfsRelax w h cost cx cy (curDist + 1) ds (integ, q)).1
            (bfsRelax w h cost cx cy (curDist + 1) ds (integ, q)).2 := by
  intro ds
  induction ds with
  | nil =>
    intro _ integ q hinv hq _
    simpa [bfsRelax] using ⟨hinv, hq⟩
  | cons d rest ih =>
    intro hds integ q hinv hq hcur
    obtain ⟨dx, dy⟩ := d
    have hdN4 : (dx, dy) ∈ N4 := hds _ (List.mem_cons_self _ _)
    have hrest : ∀ d ∈ rest, d ∈ N4 := fun d hd => hds d (List.mem_cons_of_mem _ hd)
    by_cases hb : inB w h (cx + dx) (cy + dy) = true
    · by_cases hwall : cost (cellIdx w (cx + dx) (cy + dy)) = 255
      · have hred : bfsRelax w h cost cx cy (curDist + 1) ((dx, dy) :: rest) (integ, q)
            = bfsRelax w h cost cx cy (curDist + 1) rest (integ, q) := by
          simp [bfsRelax, hb, hwall]
        rw [hred]
        exact ih hrest integ q hinv hq hcur
      · by_cases himp : curDist + 1 < integ (cellIdx w (cx + dx) (cy + dy))
        · have hred : bfsRelax w h cost cx cy (curDist + 1) ((dx, dy) :: rest) (integ, q)
              = bfsRelax w h cost cx cy (curDist + 1) rest
                  (awr integ (cellIdx w (cx + dx) (cy + dy)) (curDist + 1),
                    q ++ [cellIdx w (cx + dx) (cy + dy)]) := by
            simp [bfsRelax, hb, hwall, himp]
          rw [hred]
          set ni := cellIdx w (cx + dx) (cy + dy) with hni
          have hcur_ne : cellIdx w cx cy ≠ ni := by
            intro hcontra
            obtain ⟨hx, hy⟩ := cellIdx_inj hcb hb hcontra
            rcases (N4_spec _ hdN4).2 with hdx | hdy
            · exact hdx (by omega)
            · exact hdy (by omega)
          have hpt : ∀ j, awr integ ni (curDist + 1) j ≤ integ j := by
            intro j
            by_cases hj : j = ni
            · subst hj; rw [awr_self]; exact le_of_lt himp
            · rw [awr_other _ _ hj]
          have hinv' : BfsInv w h cost start (awr integ ni (curDist + 1)) := by
            refine ⟨?_, ?_, ?_, ?_, ?_⟩
            · intro i
              by_cases hj : i = ni
              · subst hj; rw [awr_self]; exact hcd
              · rw [awr_other _ _ hj]; exact hinv.le_inf i
            · by_cases hj : start = ni
              · exfalso
                have : curDist + 1 < integ start := hj ▸ himp
                rw [hinv.start_zero] at this
                omega
              · rw [awr_other _ _ hj]; exact hinv.start_zero
            · intro i h0
              by_cases hj : i = ni
              · subst hj; rw [awr_self] at h0; omega
              · rw [awr_other _ _ hj] at h0; exact hinv.zero_eq_start i h0
            · intro i hci
              by_cases hj : i = ni
              · exact absurd (hj ▸ hci) hwall
              · rw [awr_other _ _ hj]; exact hinv.wall_inf i hci
            · intro x y hxyb hfin hpos
              by_cases hxy : cellIdx w x y = ni
              · obtain ⟨hx, hy⟩ := cellIdx_inj hxyb hb hxy
                refine ⟨(-dx, -dy), (N4_spec _ hdN4).1, ?_, ?_, ?_⟩
                · have : x + -dx = cx ∧ y + -dy = cy := by omega
                  rw [this.1, this.2]; exact hcb
                · have : x + -dx = cx ∧ y + -dy = cy := by omega
                  rw [this.1, this.2]; exact hcw
                · have hco : x + -dx = cx ∧ y + -dy = cy := by omega
                  rw [hco.1, hco.2, hxy, awr_self, awr_other _ _ hcur_ne]
                  omega
              · rw [awr_other _ _ hxy] at hfin hpos ⊢
                obtain ⟨d0, hd0, hb0, hc0, hlt0⟩ := hinv.descent x y hxyb hfin hpos
                exact ⟨d0, hd0, hb0, hc0, lt_of_le_of_lt (hpt _) hlt0⟩
          have hq' : QueueOk w h cost (awr integ ni (curDist + 1)) (q ++ [ni]) := by
            intro c hc
            rcases List.mem_append.mp hc with hc | hc
            · obtain ⟨hco, hfin, hcost⟩ := hq c hc
              exact ⟨hco, lt_of_le_of_lt (hpt c) hfin, hcost⟩
            · rw [List.mem_singleton] at hc
              subst hc
              refine ⟨⟨cx + dx, cy + dy, hb, hni⟩, ?_, hwall⟩
              rw [awr_self]
              exact lt_of_lt_of_le himp (hinv.le_inf ni)
          have hcur' : awr integ ni (curDist + 1) (cellIdx w cx cy) ≤ curDist := by
            rw [awr_other _ _ hcur_ne]; exact hcur
          exact ih hrest _ _ hinv' hq' hcur'
        · have hred : bfsRelax w h cost cx cy (curDist + 1) ((dx, dy) :: rest) (integ, q)
              = bfsRelax w h cost cx cy (curDist + 1) rest (integ, q) := by
            simp [bfsRelax, hb, hwall, himp]
          rw [hred]
          exact ih hrest integ q hinv hq hcur
    · have hred : bfsRelax w h cost cx cy (curDist + 1) ((dx, dy) :: rest) (integ, q)
          = bfsRelax w h cost cx cy (curDist + 1) rest (integ, q) := by
        simp [bfsRelax, hb]
      rw [hred]
      exact ih hrest integ q hinv hq hcur

lemma bfsLoop_spec (w h : Nat) (cost : Int → Nat) (start : Int) :
    ∀ (fuel : Nat) (integ : Int → Nat) (q : List Int),
      BfsInv w h cost start integ → QueueOk w h cost integ q →
      BfsInv w h cost start (bfsLoop w h cost fuel integ q) := by
  intro fuel
  induction fuel with
  | zero =>
    intro integ q hinv _
    simpa [bfsLoop] using hinv
  | succ fuel ih =>
    intro integ q hinv hq
    match q with
    | [] => simpa [bfsLoop] using hinv
    | cur :: rest =>
      obtain ⟨⟨cx0, cy0, hcb0, hcur_eq⟩, hfin, hcw0⟩ := hq cur (List.mem_cons_self _ _)
      have hdec := cellIdx_decode hcb0
      have hnd : (integ cur + 1) % 65536 = integ cur + 1 := by
        have hlt : integ cur + 1 < 65536 := by
          have := hfin
          simp only [INF] at this
          omega
        exact Nat.mod_eq_of_lt hlt
      have hred : bfsLoop w h cost (fuel + 1) integ (cur :: rest)
          = bfsLoop w h cost fuel
              (bfsRelax w h cost cx0 cy0 (integ cur + 1) N4 (integ, rest)).1
              (bfsRelax w h cost cx0 cy0 (integ cur + 1) N4 (integ, rest)).2 := by
        simp only [bfsLoop]
        rw [hcur_eq, hdec.1, hdec.2, ← hcur_eq, hnd]
      rw [hred]
      have hqrest : QueueOk w h cost integ rest :=
        fun c hc => hq c (List.mem_cons_of_mem _ hc)
      have hcureq : integ (cellIdx w cx0 cy0) ≤ integ cur := by rw [← hcur_eq]
      have hcw0' : cost (cellIdx w cx0 cy0) ≠ 255 := by rw [← hcur_eq]; exact hcw0
      obtain ⟨hinv', hq'⟩ :=
        bfsRelax_spec w h cost start cx0 cy0 (integ cur) hcb0 hcw0' hfin N4
          (fun d hd => hd) integ rest hinv hqrest hcureq
      exact ih _ _ hinv' hq'

/-! ### `generate`: shape lemmas -/

lemma generate_width (f : FlowField) (tx ty : Int) : (f.generate tx ty).width = f.width := by
  rw [FlowField.generate]
  cases hb : f.inBounds tx ty <;> cases hw : f.isWall tx ty <;> simp [hb, hw]

lemma generate_height (f : FlowField) (tx ty : Int) : (f.generate tx ty).height = f.height := by
  rw [FlowField.generate]
  cases hb : f.inBounds tx ty <;> cases hw : f.isWall tx ty <;> simp [hb, hw]

lemma generate_cost (f : FlowField) (tx ty : Int) : (f.generate tx ty).cost = f.cost := by
  rw [FlowField.generate]
  cases hb : f.inBounds tx ty <;> cases hw : f.isWall tx ty <;> simp [hb, hw]

lemma generate_targetX (f : FlowField) (tx ty : Int) : (f.generate tx ty).targetX = tx := by
  rw [FlowField.generate]
  cases hb : f.inBounds tx ty <;> cases hw : f.isWall tx ty <;> simp [hb, hw]

lemma generate_targetY (f : FlowField) (tx ty : Int) : (f.generate tx ty).targetY = ty := by
  rw [FlowField.generate]
  cases hb : f.inBounds tx ty <;> cases hw : f.isWall tx ty <;> simp [hb, hw]

lemma generate_valid (f : FlowField) (tx ty : Int) (hb : f.inBounds tx ty = true)
    (hw : f.isWall tx ty = false) :
    (f.generate tx ty).integration
        = bfsLoop f.width f.height f.cost (f.width * f.height * INF + 2)
            (awr (fun _ => INF) (cellIdx f.width tx ty) 0) [cellIdx f.width tx ty] ∧
      (f.generate tx ty).direction = fun i =>
        if 0 ≤ i ∧ i < ((f.width * f.height : Nat) : Int) then
          selectDir f.width f.height f.cost
            (bfsLoop f.width f.height f.cost (f.width * f.height * INF + 2)
              (awr (fun _ => INF) (cellIdx f.width tx ty) 0) [cellIdx f.width tx ty]) i
        else FLOW_DIR_NONE := by
  rw [FlowField.generate]
  simp [hb, hw, FlowField.idx]

lemma generate_invalid (f : FlowField) (tx ty : Int)
    (hinv : f.inBounds tx ty = false ∨ f.isWall tx ty = true) :
    (f.generate tx ty).integration = (fun _ => INF) ∧
      (f.generate tx ty).direction = (fun _ => FLOW_DIR_NONE) := by
  rw [FlowField.generate]
  rcases hinv with hb | hw
  · simp [hb]
  · cases hb : f.inBounds tx ty <;> simp [hb, hw]

lemma bfs_init (w h : Nat) (cost : Int → Nat) (tx ty : Int)
    (hb : inB w h tx ty = true) (hw : cost (cellIdx w tx ty) ≠ 255) :
    BfsInv w h cost (cellIdx w tx ty) (awr (fun _ => INF) (cellIdx w tx ty) 0) ∧
      QueueOk w h cost (awr (fun _ => INF) (cellIdx w tx ty) 0) [cellIdx w tx ty] := by
  constructor
  · refine ⟨?_, ?_, ?_, ?_, ?_⟩
    · intro i
      by_cases hj : i = cellIdx w tx ty
      · subst hj; rw [awr_self]; exact Nat.zero_le _
      · rw [awr_other _ _ hj]
    · rw [awr_self]
    · intro i h0
      by_cases hj : i = cellIdx w tx ty
      · exact hj
      · rw [awr_other _ _ hj] at h0
        simp [INF] at h0
    · intro i hci
      by_cases hj : i = cellIdx w tx ty
      · exact absurd (hj ▸ hci) hw
      · rw [awr_other _ _ hj]
    · intro x y _ hfin hpos
      by_cases hj : cellIdx w x y = cellIdx w tx ty
      · rw [hj, awr_self] at hpos
        omega
      · rw [awr_other _ _ hj] at hfin
        exact absurd hfin (lt_irrefl _)
  · intro c hc
    rw [List.mem_singleton] at hc
    subst hc
    refine ⟨⟨tx, ty, hb, rfl⟩, ?_, hw⟩
    rw [awr_self]
    simp [INF]

lemma generate_bfsInv (f : FlowField) (tx ty : Int) (hb : f.inBounds tx ty = true)
    (hw : f.isWall tx ty = false) :
    BfsInv f.width f.height f.cost (cellIdx f.width tx ty) (f.generate tx ty).integration := by
  rw [(generate_valid f tx ty hb hw).1]
  have hw' : f.cost (cellIdx f.width tx ty) ≠ 255 := wallAt_false_iff.mp hw
  obtain ⟨hi, hq⟩ := bfs_init f.width f.height f.cost tx ty hb hw'
  exact bfsLoop_spec _ _ _ _ _ _ _ hi hq

/-! ### BFS fuel: the bound passed by `generate` never runs out

The source loops `while (head < tail)` with no bound; `bfsLoop` carries a
fuel argument instead.  Here we prove the modelling faithful: `bfsMeasure`
strictly decreases on every iteration, so with the fuel `generate` passes the
queue always drains first, and any sufficiently large fuel computes the same
integration map. -/

lemma sum_awr_lt (n : Nat) (integ : Int → Nat) (ni : Int) (v : Nat)
    (h0 : 0 ≤ ni) (hn : ni < ((n : Nat) : Int)) (hv : v < integ ni) :
    Finset.sum (Finset.range n) (fun j => awr integ ni v ((j : Nat) : Int))
      < Finset.sum (Finset.range n) (fun j => integ ((j : Nat) : Int)) := by
  apply Finset.sum_lt_sum
  · intro i _
    by_cases hji : ((i : Nat) : Int) = ni
    · rw [hji, awr_self]
      exact le_of_lt hv
    · rw [awr_other _ _ hji]
  · refine ⟨ni.toNat, Finset.mem_range.mpr (by omega), ?_⟩
    have hcast : ((ni.toNat : Nat) : Int) = ni := Int.toNat_of_nonneg h0
    rw [hcast, awr_self]
    exact hv

lemma bfsRelax_measure (w h : Nat) (cost : Int → Nat) (cx cy : Int) (nd : Nat) :
    ∀ (ds : List (Int × Int)) (integ : Int → Nat) (q : List Int),
      bfsMeasure w h (bfsRelax w h cost cx cy nd ds (integ, q)).1
          (bfsRelax w h cost cx cy nd ds (integ, q)).2
        ≤ bfsMeasure w h integ q := by
  intro ds
  induction ds with
  | nil => intro integ q; simp [bfsRelax]
  | cons d rest ih =>
    intro integ q
    obtain ⟨dx, dy⟩ := d
    by_cases hb : inB w h (cx + dx) (cy + dy) = true
    · by_cases hc : cost (cellIdx w (cx + dx) (cy + dy)) = 255
      · have hred : bfsRelax w h cost cx cy nd ((dx, dy) :: rest) (integ, q)
            = bfsRelax w h cost cx cy nd rest (integ, q) := by
          simp [bfsRelax, hb, hc]
        rw [hred]
        exact ih integ q
      · by_cases hlt : nd < integ (cellIdx w (cx + dx) (cy + dy))
        · have hred : bfsRelax w h cost cx cy nd ((dx, dy) :: rest) (integ, q)
              = bfsRelax w h cost cx cy nd rest
                  (awr integ (cellIdx w (cx + dx) (cy + dy)) nd,
                    q ++ [cellIdx w (cx + dx) (cy + dy)]) := by
            simp [bfsRelax, hb, hc, hlt]
          rw [hred]
          refine le_trans (ih _ _) ?_
          have hr := cellIdx_range hb
          have hs := sum_awr_lt (w * h) integ (cellIdx w (cx + dx) (cy + dy)) nd
            hr.1 hr.2 hlt
          have hlen : (q ++ [cellIdx w (cx + dx) (cy + dy)]).length = q.length + 1 := by
            simp
          rw [bfsMeasure, bfsMeasure, hlen]
          omega
        · have hred : bfsRelax w h cost cx cy nd ((dx, dy) :: rest) (integ, q)
              = bfsRelax w h cost cx cy nd rest (integ, q) := by
            simp [bfsRelax, hb, hc, hlt]
          rw [hred]
          exact ih integ q
    · have hred : bfsRelax w h cost cx cy nd ((dx, dy) :: rest) (integ, q)
          = bfsRelax w h cost cx cy nd rest (integ, q) := by
        simp [bfsRelax, hb]
      rw [hred]
      exact ih integ q

lemma bfsLoop_fuel_stable (w h : Nat) (cost : Int → Nat) :
    ∀ (m fuel₁ fuel₂ : Nat) (integ : Int → Nat) (q : List Int),
      bfsMeasure w h integ q ≤ m → m ≤ fuel₁ → m ≤ fuel₂ →
      bfsLoop w h cost fuel₁ integ q = bfsLoop w h cost fuel₂ integ q := by
  intro m
  induction m with
  | zero =>
    intro fuel₁ fuel₂ integ q hM _ _
    match q with
    | [] => cases fuel₁ <;> cases fuel₂ <;> simp [bfsLoop]
    | cur :: rest =>
      rw [bfsMeasure] at hM
      simp only [List.length_cons] at hM
      omega
  | succ m ih =>
    intro fuel₁ fuel₂ integ q hM h1 h2
    match q with
    | [] => cases fuel₁ <;> cases fuel₂ <;> simp [bfsLoop]
    | cur :: rest =>
      obtain ⟨f1, rfl⟩ : ∃ k, fuel₁ = k + 1 := ⟨fuel₁ - 1, by omega⟩
      obtain ⟨f2, rfl⟩ : ∃ k, fuel₂ = k + 1 := ⟨fuel₂ - 1, by omega⟩
      simp only [bfsLoop]
      apply ih
      · have hrel := bfsRelax_measure w h cost (cur % (w : Int)) (cur / (w : Int))
          ((integ cur + 1) % 65536) N4 integ rest
        have hsplit : bfsMeasure w h integ (cur :: rest)
            = bfsMeasure w h integ rest + 1 := by
          rw [bfsMeasure, bfsMeasure, List.length_cons]
          omega
        omega
      · omega
      · omega

lemma bfsMeasure_init (w h : Nat) (start : Int) :
    bfsMeasure w h (awr (fun _ => INF) start 0) [start] ≤ w * h * INF + 1 := by
  rw [bfsMeasure]
  have hsum : Finset.sum (Finset.range (w * h))
        (fun j => awr (fun _ => INF) start 0 ((j : Nat) : Int))
      ≤ Finset.sum (Finset.range (w * h)) (fun _ => INF) := by
    apply Finset.sum_le_sum
    intro i _
    by_cases hj : ((i : Nat) : Int) = start
    · rw [hj, awr_self]
      exact Nat.zero_le _
    · rw [awr_other _ _ hj]
  have hconst : Finset.sum (Finset.range (w * h)) (fun _ => INF) = w * h * INF := by
    rw [Finset.sum_const, Finset.card_range, smul_eq_mul]
  simp only [List.length_singleton]
  omega

/-- The fuel `generate` passes to the flood fill is semantically irrelevant:
the queue provably drains before the fuel runs out, so any fuel of at least
`width * height * INF + 1` iterations computes the same integration map.  This
justifies modelling the source's unbounded `while (head < tail)` loop with the
fuel-bounded `bfsLoop`. -/
lemma generate_fuel_irrelevant (f : FlowField) (tx ty : Int) (fuel : Nat)
    (hb : f.inBounds tx ty = true) (hw : f.isWall tx ty = false)
    (hfuel : f.width * f.height * INF + 1 ≤ fuel) :
    (f.generate tx ty).integration
      = bfsLoop f.width f.height f.cost fuel
          (awr (fun _ => INF) (cellIdx f.width tx ty) 0) [cellIdx f.width tx ty] := by
  rw [(generate_valid f tx ty hb hw).1]
  exact bfsLoop_fuel_stable f.width f.height f.cost (f.width * f.height * INF + 1)
    _ _ _ _ (bfsMeasure_init _ _ _) (by omega) hfuel

/-! ### Direction scan lemmas -/

lemma scanDirs_fst_le (w h : Nat) (cost integ : Int → Nat) (x y : Int) :
    ∀ ds acc, (scanDirs w h cost integ x y ds acc).1 ≤ acc.1 := by
  intro ds
  induction ds with
  | nil => intro acc; simp [scanDirs]
  | cons e rest ih =>
    intro acc
    obtain ⟨k, dx, dy⟩ := e
    by_cases hbm : inB w h (x + dx) (y + dy) = true
    · by_cases hcm : canUseDiag w h cost x y dx dy = true
      · by_cases hlt : integ (cellIdx w (x + dx) (y + dy)) < acc.1
        · have hred : scanDirs w h cost integ x y ((k, dx, dy) :: rest) acc
              = scanDirs w h cost integ x y rest (integ (cellIdx w (x + dx) (y + dy)), k) := by
            simp [scanDirs, hbm, hcm, hlt]
          rw [hred]
          exact le_trans (ih _) (le_of_lt hlt)
        · have hred : scanDirs w h cost integ x y ((k, dx, dy) :: rest) acc
              = scanDirs w h cost integ x y rest acc := by
            simp [scanDirs, hbm, hcm, hlt]
          rw [hred]; exact ih _
      · have hred : scanDirs w h cost integ x y ((k, dx, dy) :: rest) acc
            = scanDirs w h cost integ x y rest acc := by
          simp [scanDirs, hbm, hcm]
        rw [hred]; exact ih _
    · have hred : scanDirs w h cost integ x y ((k, dx, dy) :: rest) acc
          = scanDirs w h cost integ x y rest acc := by
        simp [scanDirs, hbm]
      rw [hred]; exact ih _

lemma scanDirs_fst_le_mem (w h : Nat) (cost integ : Int → Nat) (x y : Int) :
    ∀ ds acc k dx dy, (k, dx, dy) ∈ ds →
      inB w h (x + dx) (y + dy) = true → canUseDiag w h cost x y dx dy = true →
      (scanDirs w h cost integ x y ds acc).1 ≤ integ (cellIdx w (x + dx) (y + dy)) := by
  intro ds
  induction ds with
  | nil =>
    intro acc k dx dy hmem
    simp at hmem
  | cons e rest ih =>
    intro acc k dx dy hmem hbm hcm
    obtain ⟨k', dx', dy'⟩ := e
    rcases List.mem_cons.mp hmem with heq | hmem'
    · obtain ⟨hk, hdx, hdy⟩ : k = k' ∧ dx = dx' ∧ dy = dy' := by
        simpa [Prod.ext_iff] using heq
      subst hk; subst hdx; subst hdy
      by_cases hlt : integ (cellIdx w (x + dx) (y + dy)) < acc.1
      · have hred : scanDirs w h cost integ x y ((k, dx, dy) :: rest) acc
            = scanDirs w h cost integ x y rest (integ (cellIdx w (x + dx) (y + dy)), k) := by
          simp [scanDirs, hbm, hcm, hlt]
        rw [hred]
        exact scanDirs_fst_le w h cost integ x y rest _
      · have hred : scanDirs w h cost integ x y ((k, dx, dy) :: rest) acc
            = scanDirs w h cost integ x y rest acc := by
          simp [scanDirs, hbm, hcm, hlt]
        rw [hred]
        exact le_trans (scanDirs_fst_le w h cost integ x y rest _) (by omega)
    · by_cases hbm' : inB w h (x + dx') (y + dy') = true
      · by_cases hcm' : canUseDiag w h cost x y dx' dy' = true
        · by_cases hlt : integ (cellIdx w (x + dx') (y + dy')) < acc.1
          · have hred : scanDirs w h cost integ x y ((k', dx', dy') :: rest) acc
                = scanDirs w h cost integ x y rest
                    (integ (cellIdx w (x + dx') (y + dy')), k') := by
              simp [scanDirs, hbm', hcm', hlt]
            rw [hred]; exact ih _ _ _ _ hmem' hbm hcm
          · have hred : scanDirs w h cost integ x y ((k', dx', dy') :: rest) acc
                = scanDirs w h cost integ x y rest acc := by
              simp [scanDirs, hbm', hcm', hlt]
            rw [hred]; exact ih _ _ _ _ hmem' hbm hcm
        · have hred : scanDirs w h cost integ x y ((k', dx', dy') :: rest) acc
              = scanDirs w h cost integ x y rest acc := by
            simp [scanDirs, hbm', hcm']
          rw [hred]; exact ih _ _ _ _ hmem' hbm hcm
      · have hred : scanDirs w h cost integ x y ((k', dx', dy') :: rest) acc
            = scanDirs w h cost integ x y rest acc := by
          simp [scanDirs, hbm']
        rw [hred]; exact ih _ _ _ _ hmem' hbm hcm

lemma scanDirs_shape (w h : Nat) (cost integ : Int → Nat) (x y : Int) (d0 : Nat) :
    ∀ ds, (∀ e ∈ ds, e ∈ N8E) → ∀ acc,
      ((acc.2 = FLOW_DIR_NONE ∧ acc.1 = d0) ∨ GoodAcc w h cost integ x y d0 acc) →
      (((scanDirs w h cost integ x y ds acc).2 = FLOW_DIR_NONE ∧
          (scanDirs w h cost integ x y ds acc).1 = d0) ∨
        GoodAcc w h cost integ x y d0 (scanDirs w h cost integ x y ds acc)) := by
  intro ds
  induction ds with
  | nil =>
    intro _ acc hacc
    simpa [scanDirs] using hacc
  | cons e rest ih =>
    intro hds acc hacc
    obtain ⟨k, dx, dy⟩ := e
    have hkN8 : (k, dx, dy) ∈ N8E := hds _ (List.mem_cons_self _ _)
    have hrest : ∀ e ∈ rest, e ∈ N8E := fun e he => hds e (List.mem_cons_of_mem _ he)
    by_cases hbm : inB w h (x + dx) (y + dy) = true
    · by_cases hcm : canUseDiag w h cost x y dx dy = true
      · by_cases hlt : integ (cellIdx w (x + dx) (y + dy)) < acc.1
        · have hred : scanDirs w h cost integ x y ((k, dx, dy) :: rest) acc
              = scanDirs w h cost integ x y rest (integ (cellIdx w (x + dx) (y + dy)), k) := by
            simp [scanDirs, hbm, hcm, hlt]
          rw [hred]
          apply ih hrest
          right
          refine ⟨k, dx, dy, hkN8, rfl, hbm, hcm, rfl, ?_⟩
          rcases hacc with ⟨_, hd⟩ | ⟨_, _, _, _, _, _, _, _, hd⟩
          · omega
          · omega
        · have hred : scanDirs w h cost integ x y ((k, dx, dy) :: rest) acc
              = scanDirs w h cost integ x y rest acc := by
            simp [scanDirs, hbm, hcm, hlt]
          rw [hred]; exact ih hrest acc hacc
      · have hred : scanDirs w h cost integ x y ((k, dx, dy) :: rest) acc
            = scanDirs w h cost integ x y rest acc := by
          simp [scanDirs, hbm, hcm]
        rw [hred]; exact ih hrest acc hacc
    · have hred : scanDirs w h cost integ x y ((k, dx, dy) :: rest) acc
          = scanDirs w h cost integ x y rest acc := by
        simp [scanDirs, hbm]
      rw [hred]; exact ih hrest acc hacc

lemma selectDir_eq_scan (w h : Nat) (cost integ : Int → Nat) {x y : Int}
    (hb : inB w h x y = true) (hwall : cost (cellIdx w x y) ≠ 255)
    (hfin : integ (cellIdx w x y) ≠ INF) (hpos : integ (cellIdx w x y) ≠ 0) :
    selectDir w h cost integ (cellIdx w x y)
      = (scanDirs w h cost integ x y N8E (integ (cellIdx w x y), FLOW_DIR_NONE)).2 := by
  have hdec := cellIdx_decode hb
  rw [selectDir]
  simp [hwall, hfin, hpos, hdec.1, hdec.2]

lemma selectDir_points_down (w h : Nat) (cost integ : Int → Nat) {x y : Int}
    (hb : inB w h x y = true) (hwall : cost (cellIdx w x y) ≠ 255)
    (hfin : integ (cellIdx w x y) ≠ INF) (hpos : integ (cellIdx w x y) ≠ 0)
    (hcard : ∃ d ∈ N4, inB w h (x + d.1) (y + d.2) = true ∧
        integ (cellIdx w (x + d.1) (y + d.2)) < integ (cellIdx w x y)) :
    ∃ k dx dy, (k, dx, dy) ∈ N8E ∧ selectDir w h cost integ (cellIdx w x y) = k ∧
      inB w h (x + dx) (y + dy) = true ∧ canUseDiag w h cost x y dx dy = true ∧
      integ (cellIdx w (x + dx) (y + dy)) < integ (cellIdx w x y) := by
  obtain ⟨dc, hdc, hbc, hltc⟩ := hcard
  obtain ⟨kc, hkc⟩ := N4_to_N8E dc hdc
  have hccd : canUseDiag w h cost x y dc.1 dc.2 = true := N4_canUseDiag w h cost x y dc hdc
  have hlow : (scanDirs w h cost integ x y N8E (integ (cellIdx w x y), FLOW_DIR_NONE)).1
      < integ (cellIdx w x y) :=
    lt_of_le_of_lt (scanDirs_fst_le_mem w h cost integ x y N8E _ kc dc.1 dc.2 hkc hbc hccd) hltc
  have hshape := scanDirs_shape w h cost integ x y (integ (cellIdx w x y)) N8E
    (fun e he => he) (integ (cellIdx w x y), FLOW_DIR_NONE) (Or.inl ⟨rfl, rfl⟩)
  rcases hshape with ⟨_, heq⟩ | ⟨k, dx, dy, hmem, hk2, hbk, hck, hveq, hvlt⟩
  · rw [heq] at hlow
    exact absurd hlow (lt_irrefl _)
  · refine ⟨k, dx, dy, hmem, ?_, hbk, hck, ?_⟩
    · rw [selectDir_eq_scan w h cost integ hb hwall hfin hpos, hk2]
    · rw [hveq]
      exact hvlt

/-! ### Per-cell direction property and descent to the target -/

lemma generate_dir_down (f : FlowField) (tx ty : Int) (hb : f.inBounds tx ty = true)
    (hw : f.isWall tx ty = false) {x y : Int}
    (hxb : inB f.width f.height x y = true)
    (hxw : f.cost (cellIdx f.width x y) ≠ 255)
    (hfin : (f.generate tx ty).integration (cellIdx f.width x y) ≠ INF)
    (hpos : (f.generate tx ty).integration (cellIdx f.width x y) ≠ 0) :
    ∃ k dx dy, (k, dx, dy) ∈ N8E ∧
      (f.generate tx ty).direction (cellIdx f.width x y) = k ∧
      inB f.width f.height (x + dx) (y + dy) = true ∧
      canUseDiag f.width f.height f.cost x y dx dy = true ∧
      f.cost (cellIdx f.width (x + dx) (y + dy)) ≠ 255 ∧
      (f.generate tx ty).integration (cellIdx f.width (x + dx) (y + dy))
        < (f.generate tx ty).integration (cellIdx f.width x y) := by
  have hInv := generate_bfsInv f tx ty hb hw
  have hval := generate_valid f tx ty hb hw
  have hfin' : (f.generate tx ty).integration (cellIdx f.width x y) < INF :=
    lt_of_le_of_ne (hInv.le_inf _) hfin
  obtain ⟨d, hd, hbd, _, hltd⟩ :=
    hInv.descent x y hxb hfin' (Nat.pos_of_ne_zero hpos)
  obtain ⟨k, dx, dy, hmem, hsel, hbk, hck, hlt⟩ :=
    selectDir_points_down f.width f.height f.cost (f.generate tx ty).integration hxb hxw
      hfin hpos ⟨d, hd, hbd, hltd⟩
  have hdir : (f.generate tx ty).direction (cellIdx f.width x y)
      = selectDir f.width f.height f.cost (f.generate tx ty).integration
          (cellIdx f.width x y) := by
    rw [hval.2, hval.1]
    dsimp only
    have hr := cellIdx_range hxb
    rw [if_pos ⟨hr.1, hr.2⟩]
  have hnw : f.cost (cellIdx f.width (x + dx) (y + dy)) ≠ 255 := by
    intro hcon
    have hiw := hInv.wall_inf _ hcon
    rw [hiw] at hlt
    have := hInv.le_inf (cellIdx f.width x y)
    omega
  exact ⟨k, dx, dy, hmem, by rw [hdir]; exact hsel, hbk, hck, hnw, hlt⟩

lemma generate_at_target (f : FlowField) (tx ty : Int) (hb : f.inBounds tx ty = true)
    (hw : f.isWall tx ty = false) (p : Int × Int)
    (hpb : inB f.width f.height p.1 p.2 = true)
    (h0 : (f.generate tx ty).integration (cellIdx f.width p.1 p.2) = 0) : p = (tx, ty) := by
  have hInv := generate_bfsInv f tx ty hb hw
  have hstart := hInv.zero_eq_start _ h0
  have hco := cellIdx_inj hpb hb hstart
  exact Prod.ext hco.1 hco.2

lemma generate_descend (f : FlowField) (tx ty : Int) (hb : f.inBounds tx ty = true)
    (hw : f.isWall tx ty = false) :
    ∀ (b : Nat) (p : Int × Int), inB f.width f.height p.1 p.2 = true →
      f.cost (cellIdx f.width p.1 p.2) ≠ 255 →
      (f.generate tx ty).integration (cellIdx f.width p.1 p.2) ≤ b →
      (f.generate tx ty).integration (cellIdx f.width p.1 p.2) < INF →
      ∃ m, m ≤ (f.generate tx ty).integration (cellIdx f.width p.1 p.2) ∧
        (f.generate tx ty).stepCell^[m] p = (tx, ty) ∧
        ∀ j < m,
          (f.generate tx ty).cellVal ((f.generate tx ty).stepCell^[j + 1] p)
            < (f.generate tx ty).cellVal ((f.generate tx ty).stepCell^[j] p) := by
  intro b
  induction b with
  | zero =>
    intro p hpb hpw hle _
    have h0 : (f.generate tx ty).integration (cellIdx f.width p.1 p.2) = 0 := by omega
    refine ⟨0, by omega, ?_, fun j hj => absurd hj (Nat.not_lt_zero j)⟩
    simpa using generate_at_target f tx ty hb hw p hpb h0
  | succ b ih =>
    intro p hpb hpw hle hfin
    by_cases h0 : (f.generate tx ty).integration (cellIdx f.width p.1 p.2) = 0
    · refine ⟨0, by omega, ?_, fun j hj => absurd hj (Nat.not_lt_zero j)⟩
      simpa using generate_at_target f tx ty hb hw p hpb h0
    · obtain ⟨k, dx, dy, hmem, hdir, hbk, hck, hnw, hlt⟩ :=
        generate_dir_down f tx ty hb hw hpb hpw (ne_of_lt hfin) h0
      have hkne : k ≠ FLOW_DIR_NONE := by
        have h8 := (N8E_spec _ hmem).2
        simp only [FLOW_DIR_NONE]
        omega
      have hstep : (f.generate tx ty).stepCell p = (p.1 + dx, p.2 + dy) := by
        rw [FlowField.stepCell]
        simp only [FlowField.idx, generate_width]
        rw [hdir, if_neg hkne, (N8E_spec _ hmem).1]
      obtain ⟨m', hm'le, hm'it, hm'dec⟩ :=
        ih (p.1 + dx, p.2 + dy) hbk hnw (by dsimp only; omega)
          (by dsimp only; exact lt_trans hlt hfin)
      have hm'le' : m' ≤ (f.generate tx ty).integration
          (cellIdx f.width (p.1 + dx) (p.2 + dy)) := by simpa using hm'le
      refine ⟨m' + 1, by omega, ?_, ?_⟩
      · rw [Function.iterate_succ_apply, hstep]
        exact hm'it
      · intro j hj
        cases j with
        | zero =>
          simp only [Function.iterate_succ_apply, Function.iterate_zero, id_eq, Function.iterate_zero_apply]
          rw [hstep]
          simp only [FlowField.cellVal, FlowField.idx, generate_width]
          exact hlt
        | succ j' =>
          have hshift : ∀ n : Nat,
              (f.generate tx ty).stepCell^[n + 1] p
                = (f.generate tx ty).stepCell^[n] (p.1 + dx, p.2 + dy) := by
            intro n
            rw [Function.iterate_succ_apply, hstep]
          rw [hshift (j' + 1), hshift j']
          exact hm'dec j' (by omega)

lemma generate_inBounds (f : FlowField) (tx ty x y : Int) :
    (f.generate tx ty).inBounds x y = inB f.width f.height x y := by
  rw [FlowField.inBounds, generate_width, generate_height]

lemma generate_isWall (f : FlowField) (tx ty x y : Int) :
    (f.generate tx ty).isWall x y = wallAt f.width f.cost x y := by
  rw [FlowField.isWall, generate_width, generate_cost]

lemma generate_idx (f : FlowField) (tx ty x y : Int) :
    (f.generate tx ty).idx x y = cellIdx f.width x y := by
  rw [FlowField.idx, generate_width]

lemma N8E_diag : ∀ e ∈ N8E, (e.1 = 1 ∨ e.1 = 3 ∨ e.1 = 5 ∨ e.1 = 7) →
    e.2.1 ≠ 0 ∧ e.2.2 ≠ 0 := by decide

lemma canUseDiag_corners {w h : Nat} {cost : Int → Nat} {x y dx dy : Int}
    (hdx : dx ≠ 0) (hdy : dy ≠ 0) (hc : canUseDiag w h cost x y dx dy = true) :
    inB w h (x + dx) y = true ∧ inB w h x (y + dy) = true ∧
      cost (cellIdx w (x + dx) y) ≠ 255 ∧ cost (cellIdx w x (y + dy)) ≠ 255 := by
  rw [canUseDiag] at hc
  have hcond : (dx == 0 || dy == 0) = false := by simp [hdx, hdy]
  rw [hcond] at hc
  simp only [Bool.false_eq_true, if_false] at hc
  by_cases hb1 : inB w h (x + dx) y = true
  · by_cases hb2 : inB w h x (y + dy) = true
    · simp only [hb1, hb2, Bool.not_true, Bool.or_self, Bool.false_eq_true, if_false,
        Bool.and_eq_true, Bool.not_eq_true'] at hc
      exact ⟨hb1, hb2, wallAt_false_iff.mp hc.1, wallAt_false_iff.mp hc.2⟩
    · simp only [Bool.not_eq_true] at hb2
      simp [hb1, hb2] at hc
  · simp only [Bool.not_eq_true] at hb1
    simp [hb1] at hc

/-- C1: after `generate(tx, ty)` with an in-bounds, non-wall target, the target
cell's integration is 0; every in-bounds walkable cell whose integration is
finite and nonzero carries a direction other than `FLOW_DIR_NONE` whose decoded
offset points to an in-bounds neighbour with strictly smaller integration; and
from every reachable (finite-integration) walkable cell, iterating `stepCell`
reaches the target cell while the integration value strictly decreases at every
step along the way. -/
theorem claim_C1_flow_descent (f : FlowField) (tx ty : Int)
    (hb : f.inBounds tx ty = true) (hw : f.isWall tx ty = false) :
    (f.generate tx ty).integration ((f.generate tx ty).idx tx ty) = 0 ∧
    (∀ x y, (f.generate tx ty).inBounds x y = true →
      (f.generate tx ty).isWall x y = false →
      (f.generate tx ty).integration ((f.generate tx ty).idx x y) ≠ INF →
      (f.generate tx ty).integration ((f.generate tx ty).idx x y) ≠ 0 →
      (f.generate tx ty).direction ((f.generate tx ty).idx x y) ≠ FLOW_DIR_NONE ∧
      (f.generate tx ty).inBounds
          (x + (dirVec ((f.generate tx ty).direction ((f.generate tx ty).idx x y))).1)
          (y + (dirVec ((f.generate tx ty).direction ((f.generate tx ty).idx x y))).2)
        = true ∧
      (f.generate tx ty).integration ((f.generate tx ty).idx
          (x + (dirVec ((f.generate tx ty).direction ((f.generate tx ty).idx x y))).1)
          (y + (dirVec ((f.generate tx ty).direction ((f.generate tx ty).idx x y))).2))
        < (f.generate tx ty).integration ((f.generate tx ty).idx x y)) ∧
    (∀ x y, (f.generate tx ty).inBounds x y = true →
      (f.generate tx ty).isWall x y = false →
      (f.generate tx ty).integration ((f.generate tx ty).idx x y) ≠ INF →
      ∃ m, (f.generate tx ty).stepCell^[m] (x, y) = (tx, ty) ∧
        ∀ j < m,
          (f.generate tx ty).cellVal ((f.generate tx ty).stepCell^[j + 1] (x, y))
            < (f.generate tx ty).cellVal ((f.generate tx ty).stepCell^[j] (x, y))) := by
  have hInv := generate_bfsInv f tx ty hb hw
  refine ⟨?_, ?_, ?_⟩
  · rw [generate_idx]
    exact hInv.start_zero
  · intro x y hxb hxw hfin hpos
    rw [generate_inBounds] at hxb
    rw [generate_isWall, wallAt_false_iff] at hxw
    rw [generate_idx] at hfin hpos
    obtain ⟨k, dx, dy, hmem, hdir, hbk, hck, hnw, hlt⟩ :=
      generate_dir_down f tx ty hb hw hxb hxw hfin hpos
    simp only [generate_idx, generate_inBounds]
    rw [hdir, (N8E_spec _ hmem).1]
    dsimp only
    refine ⟨?_, hbk, hlt⟩
    have h8 := (N8E_spec _ hmem).2
    simp only [FLOW_DIR_NONE]
    omega
  · intro x y hxb hxw hfin
    rw [generate_inBounds] at hxb
    rw [generate_isWall, wallAt_false_iff] at hxw
    rw [generate_idx] at hfin
    have hfin' : (f.generate tx ty).integration (cellIdx f.width x y) < INF :=
      lt_of_le_of_ne (hInv.le_inf _) hfin
    obtain ⟨m, _, hit, hdec⟩ :=
      generate_descend f tx ty hb hw ((f.generate tx ty).integration (cellIdx f.width x y))
        (x, y) (by dsimp only; exact hxb) (by dsimp only; exact hxw)
        (by dsimp only; exact le_rfl) (by dsimp only; exact hfin')
    exact ⟨m, hit, hdec⟩

/-- Witness for C1 on a concrete 3×3 all-walkable grid with target (1, 1):
the hypotheses hold, the target integration is 0, cell (0, 0) receives a
direction, and stepping from (0, 0) reaches the target with strictly
decreasing integration. -/
theorem claim_C1_flow_descent_witness :
    demoOpen3.inBounds 1 1 = true ∧ demoOpen3.isWall 1 1 = false ∧
    (demoOpen3.generate 1 1).integration ((demoOpen3.generate 1 1).idx 1 1) = 0 ∧
    (demoOpen3.generate 1 1).direction ((demoOpen3.generate 1 1).idx 0 0) ≠ FLOW_DIR_NONE ∧
    (∃ m, (demoOpen3.generate 1 1).stepCell^[m] (0, 0) = (1, 1) ∧
      ∀ j < m,
        (demoOpen3.generate 1 1).cellVal ((demoOpen3.generate 1 1).stepCell^[j + 1] (0, 0))
          < (demoOpen3.generate 1 1).cellVal ((demoOpen3.generate 1 1).stepCell^[j] (0, 0))) := by
  have hmain := claim_C1_flow_descent demoOpen3 1 1 (by decide) (by decide)
  refine ⟨by decide, by decide, hmain.1, ?_, ?_⟩
  · exact (hmain.2.1 0 0 (by decide) (by decide) (by decide) (by decide)).1
  · exact hmain.2.2 0 0 (by decide) (by decide) (by decide)

/-- C5: after `generate` with a valid target, a cell assigned a diagonal
direction (`N8` index 1, 3, 5 or 7) always has both corner-forming orthogonal
neighbours of that diagonal in bounds and walkable (and the diagonal passed
`canUseDiagonal`); equivalently, no diagonal direction is ever assigned when
either corner cell is a wall or out of bounds. -/
theorem claim_C5_diagonal_corners (f : FlowField) (tx ty : Int)
    (hb : f.inBounds tx ty = true) (hw : f.isWall tx ty = false)
    (x y : Int) (hxb : (f.generate tx ty).inBounds x y = true) (k : Nat)
    (hk : (f.generate tx ty).direction ((f.generate tx ty).idx x y) = k)
    (hd : k = 1 ∨ k = 3 ∨ k = 5 ∨ k = 7) :
    (f.generate tx ty).inBounds (x + (dirVec k).1) y = true ∧
    (f.generate tx ty).inBounds x (y + (dirVec k).2) = true ∧
    (f.generate tx ty).isWall (x + (dirVec k).1) y = false ∧
    (f.generate tx ty).isWall x (y + (dirVec k).2) = false ∧
    (f.generate tx ty).canUseDiagonal x y (dirVec k).1 (dirVec k).2 = true := by
  rw [generate_inBounds] at hxb
  rw [generate_idx] at hk
  have hval := generate_valid f tx ty hb hw
  have hr := cellIdx_range hxb
  have hksel : selectDir f.width f.height f.cost (f.generate tx ty).integration
      (cellIdx f.width x y) = k := by
    rw [hval.2] at hk
    dsimp only at hk
    rw [if_pos ⟨hr.1, hr.2⟩] at hk
    rw [hval.1]
    exact hk
  by_cases hwall : f.cost (cellIdx f.width x y) = 255
  · exfalso
    rw [selectDir, if_pos hwall] at hksel
    simp only [FLOW_DIR_NONE] at hksel
    omega
  · by_cases hfin : (f.generate tx ty).integration (cellIdx f.width x y) = INF
    · exfalso
      rw [selectDir, if_neg hwall] at hksel
      dsimp only at hksel
      rw [if_pos hfin] at hksel
      simp only [FLOW_DIR_NONE] at hksel
      omega
    · by_cases hpos : (f.generate tx ty).integration (cellIdx f.width x y) = 0
      · exfalso
        rw [selectDir, if_neg hwall] at hksel
        dsimp only at hksel
        rw [if_neg hfin, if_pos hpos] at hksel
        simp only [FLOW_DIR_NONE] at hksel
        omega
      · rw [selectDir_eq_scan f.width f.height f.cost (f.generate tx ty).integration hxb
          hwall hfin hpos] at hksel
        have hshape := scanDirs_shape f.width f.height f.cost (f.generate tx ty).integration
          x y ((f.generate tx ty).integration (cellIdx f.width x y)) N8E
          (fun e he => he)
          ((f.generate tx ty).integration (cellIdx f.width x y), FLOW_DIR_NONE)
          (Or.inl ⟨rfl, rfl⟩)
        rcases hshape with ⟨h2, _⟩ | ⟨k', dx, dy, hmem, hk2, hbk, hck, _, _⟩
        · exfalso
          rw [hksel] at h2
          subst h2
          simp only [FLOW_DIR_NONE] at hd
          omega
        · have hkk : k' = k := by rw [← hksel, hk2]
          subst hkk
          have hdxy := N8E_diag _ hmem hd
          have hcor := canUseDiag_corners hdxy.1 hdxy.2 hck
          have hdv : dirVec k' = (dx, dy) := (N8E_spec _ hmem).1
          rw [FlowField.canUseDiagonal, generate_width, generate_height, generate_cost]
          simp only [generate_inBounds, generate_isWall, hdv]
          exact ⟨hcor.1, hcor.2.1, wallAt_false_iff.mpr hcor.2.2.1,
            wallAt_false_iff.mpr hcor.2.2.2, hck⟩

/-- Witness for C5: on the concrete 3×3 open grid with target (1, 1), cell
(0, 0) is assigned the diagonal direction 1 and both corner cells are in
bounds and walkable. -/
theorem claim_C5_diagonal_corners_witness :
    (demoOpen3.generate 1 1).direction ((demoOpen3.generate 1 1).idx 0 0) = 1 ∧
    ((demoOpen3.generate 1 1).inBounds (0 + (dirVec 1).1) 0 = true ∧
      (demoOpen3.generate 1 1).inBounds 0 (0 + (dirVec 1).2) = true ∧
      (demoOpen3.generate 1 1).isWall (0 + (dirVec 1).1) 0 = false ∧
      (demoOpen3.generate 1 1).isWall 0 (0 + (dirVec 1).2) = false ∧
      (demoOpen3.generate 1 1).canUseDiagonal 0 0 (dirVec 1).1 (dirVec 1).2 = true) :=
  ⟨by decide, claim_C5_diagonal_corners demoOpen3 1 1 (by decide) (by decide) 0 0
    (by decide) 1 (by decide) (Or.inl rfl)⟩

/-- C6: `generate` with an out-of-bounds or wall target completes (it is a
total function) and leaves every cell's integration at the `INF` sentinel and
every cell's direction at `FLOW_DIR_NONE`. -/
theorem claim_C6_invalid_target_noop (f : FlowField) (tx ty : Int)
    (hinv : f.inBounds tx ty = false ∨ f.isWall tx ty = true) :
    (∀ i, (f.generate tx ty).integration i = INF) ∧
      (∀ i, (f.generate tx ty).direction i = FLOW_DIR_NONE) := by
  have hgen := generate_invalid f tx ty hinv
  exact ⟨fun i => by rw [hgen.1], fun i => by rw [hgen.2]⟩

/-- Witness for C6 at the out-of-bounds target (5, 5) of the 3×3 grid. -/
theorem claim_C6_invalid_target_noop_witness :
    demoOpen3.inBounds 5 5 = false ∧
      (∀ i, (demoOpen3.generate 5 5).integration i = INF) ∧
      (∀ i, (demoOpen3.generate 5 5).direction i = FLOW_DIR_NONE) := by
  have hmain := claim_C6_invalid_target_noop demoOpen3 5 5 (Or.inl (by decide))
  exact ⟨by decide, hmain.1, hmain.2⟩

/-! ### C2: wall-cell invariant of the agent update -/

/-- Core of C2: the bounds/base/wall-slide resolution commits a position in an
in-bounds wall cell only if the starting cell already was one. -/
lemma resolveMove_no_wall (f : FlowField) (L : Layout)
    (W H x y nx0 ny0 vx2 vy2 nx ny nvx nvy : ℚ)
    (hstart : ¬(f.inBounds ⌊(x - L.offsetX) / L.cellPx⌋ ⌊(y - L.offsetY) / L.cellPx⌋ = true ∧
        f.isWall ⌊(x - L.offsetX) / L.cellPx⌋ ⌊(y - L.offsetY) / L.cellPx⌋ = true))
    (hmove : resolveMove f L W H x y nx0 ny0 vx2 vy2 = TickOutcome.move nx ny nvx nvy) :
    ¬(f.inBounds ⌊(nx - L.offsetX) / L.cellPx⌋ ⌊(ny - L.offsetY) / L.cellPx⌋ = true ∧
      f.isWall ⌊(nx - L.offsetX) / L.cellPx⌋ ⌊(ny - L.offsetY) / L.cellPx⌋ = true) := by
  simp only [resolveMove] at hmove
  split_ifs at hmove <;>
    first
      | exact TickOutcome.noConfusion hmove
      | (simp only [TickOutcome.move.injEq] at hmove
         obtain ⟨hnx, hny, -, -⟩ := hmove
         subst hnx
         subst hny
         intro hcon
         simp_all [Bool.and_eq_true, Bool.not_eq_true'])

/-- C2 (amended): the agent update never moves an agent into a wall cell:
whenever `agentTick` commits a position (no respawn), the committed position's
cell is an in-bounds wall only if the agent's starting cell already was one.
(The original claim fails: an agent already inside a wall — e.g. a wall
painted under it — can stay there for arbitrarily many ticks, see the
counterexample.) -/
theorem claim_C2_no_wall_entry (f : FlowField) (L : Layout) (W H : ℚ) (cnt : Int → Nat)
    (tIn : Int) (pStr sepX sepY x y vx vy dt s nx ny nvx nvy : ℚ)
    (hstart : ¬(f.inBounds ⌊(x - L.offsetX) / L.cellPx⌋ ⌊(y - L.offsetY) / L.cellPx⌋ = true ∧
        f.isWall ⌊(x - L.offsetX) / L.cellPx⌋ ⌊(y - L.offsetY) / L.cellPx⌋ = true))
    (hmove : agentTick f L W H cnt tIn pStr sepX sepY x y vx vy dt s
        = TickOutcome.move nx ny nvx nvy) :
    ¬(f.inBounds ⌊(nx - L.offsetX) / L.cellPx⌋ ⌊(ny - L.offsetY) / L.cellPx⌋ = true ∧
      f.isWall ⌊(nx - L.offsetX) / L.cellPx⌋ ⌊(ny - L.offsetY) / L.cellPx⌋ = true) :=
  resolveMove_no_wall f L W H x y _ _ _ _ nx ny nvx nvy hstart hmove

section
attribute [local semireducible] Rat.add Rat.mul Rat.inv Rat.sub Rat.ofScientific

/-- C2 counterexample: on a freshly mounted 5×5 grid a wall is painted through
the editor at cell (1, 1) under a stationary agent at (15, 15) (cell size 10)
— a state the game reaches whenever a wall is drawn under an agent.  The
agent's cell gives no flow force (walls keep direction `FLOW_DIR_NONE`) and no
pressure force, the slide keeps the old position on both axes, and the tick
commits the very same in-wall position — so on the tick after the wall was
entered (and, the state repeating, on every later tick) the agent is still
left inside the wall cell, contradicting the claim. -/
theorem claim_C2_counterexample :
    demoWalled5.inBounds 1 1 = true ∧
    demoWalled5.isWall 1 1 = true ∧
    (⌊((15 : ℚ) - (0 : ℚ)) / (10 : ℚ)⌋ = (1 : Int)) ∧
    agentTick demoWalled5 ⟨0, 0, 10⟩ 50 50 (fun _ => 0) 6 1 0 0 15 15 0 0
        (dtClamp 50) 0
      = TickOutcome.move 15 15 0 0 :=
  ⟨by decide, by decide, by decide, by decide⟩

/-- Witness for the amended C2: an agent starting in walkable cell (2, 2) of
the walled demo grid commits a position whose cell is again not a wall. -/
theorem claim_C2_no_wall_entry_witness :
    ¬((demoWall3.generate 0 0).inBounds ⌊((25 : ℚ) - 0) / 10⌋ ⌊((25 : ℚ) - 0) / 10⌋ = true ∧
        (demoWall3.generate 0 0).isWall ⌊((25 : ℚ) - 0) / 10⌋ ⌊((25 : ℚ) - 0) / 10⌋ = true) ∧
    ¬((demoWall3.generate 0 0).inBounds ⌊((112 / 5 : ℚ) - 0) / 10⌋
          ⌊((25 : ℚ) - 0) / 10⌋ = true ∧
        (demoWall3.generate 0 0).isWall ⌊((112 / 5 : ℚ) - 0) / 10⌋
          ⌊((25 : ℚ) - 0) / 10⌋ = true) :=
  ⟨by decide,
    claim_C2_no_wall_entry (demoWall3.generate 0 0) ⟨0, 0, 10⟩ 30 30 (fun _ => 0) 6 1 0 0
      25 25 0 0 (dtClamp 50) 0 (112 / 5) 25 (-13 / 5) 0 (by decide) (by decide)⟩

end

/-! ### C3: start-wave trigger while Active -/

/-- C3 counterexample: from a state whose wave is already Active, `startWave`
(the handler the `waveToken` effect invokes on every trigger) increments the
wave counter, resets base hp to max and resets the combat cooldown — the
trigger is not ignored. -/
theorem claim_C3_counterexample :
    demoWaveActive.waveActive = true ∧
    (startWave 31000 demoWaveActive).wave = demoWaveActive.wave + 1 ∧
    (startWave 31000 demoWaveActive).baseHp = demoWaveActive.baseHpMax ∧
    (startWave 31000 demoWaveActive).fireCooldown = 0 :=
  ⟨rfl, rfl, rfl, rfl⟩

/-- C3 (amended): a start-wave trigger delivered to the canvas is processed
unconditionally — `startWave` has no guard on `waveActive`.  Even while Active
it increments the wave counter, re-enters Active, resets base hp to max,
resets the combat cooldown and restarts the wave timer (and the source also
reinitializes the swarm population via `rebuildSwarm`).  Suppression of
triggers while Active exists only in the external UI (a button disabled on
the throttled telemetry snapshot), not in the wave controller. -/
theorem claim_C3_trigger_not_ignored (s : WaveState) (now : ℚ)
    (hactive : s.waveActive = true) :
    (startWave now s).wave = s.wave + 1 ∧
    (startWave now s).waveActive = true ∧
    (startWave now s).baseHp = s.baseHpMax ∧
    (startWave now s).fireCooldown = 0 ∧
    (startWave now s).waveEndsAt = now + waveDurationMs ∧
    (startWave now s).gold = s.gold :=
  ⟨rfl, rfl, rfl, rfl, rfl, rfl⟩

/-- Witness for the amended C3 at the concrete Active state. -/
theorem claim_C3_trigger_not_ignored_witness :
    demoWaveActive.waveActive = true ∧
    ((startWave 31000 demoWaveActive).wave = demoWaveActive.wave + 1 ∧
      (startWave 31000 demoWaveActive).waveActive = true ∧
      (startWave 31000 demoWaveActive).baseHp = demoWaveActive.baseHpMax ∧
      (startWave 31000 demoWaveActive).fireCooldown = 0 ∧
      (startWave 31000 demoWaveActive).waveEndsAt = 31000 + waveDurationMs ∧
      (startWave 31000 demoWaveActive).gold = demoWaveActive.gold) :=
  ⟨rfl, claim_C3_trigger_not_ignored demoWaveActive 31000 rfl⟩

/-! ### C4: integration step -/

/-- C4 (amended): with the timestep produced by the ticker's clamp, one
integration step computes the new velocity as the damped previous velocity
plus acceleration times the timestep, clamps its magnitude to `maxSpeed`
(never exceeded afterwards), and advances the position by the full new
velocity — NOT by velocity × timestep as the original claim states; the
timestep itself is clamped to [0.001, 0.05].  `s` is constrained to be the
square root the source takes of the squared speed. -/
theorem claim_C4_semi_implicit_euler (x y vx vy ax ay frameMs s : ℚ)
    (hs : s * s = (vx * damping + ax * dtClamp frameMs) * (vx * damping + ax * dtClamp frameMs)
        + (vy * damping + ay * dtClamp frameMs) * (vy * damping + ay * dtClamp frameMs))
    (hs0 : 0 ≤ s) :
    (1 / 1000 : ℚ) ≤ dtClamp frameMs ∧ dtClamp frameMs ≤ 1 / 20 ∧
    damping < 1 ∧
    (integrate x y vx vy ax ay (dtClamp frameMs) s).2
      = clampSpeed (vx * damping + ax * dtClamp frameMs)
          (vy * damping + ay * dtClamp frameMs) s ∧
    (integrate x y vx vy ax ay (dtClamp frameMs) s).2.1 *
          (integrate x y vx vy ax ay (dtClamp frameMs) s).2.1 +
        (integrate x y vx vy ax ay (dtClamp frameMs) s).2.2 *
          (integrate x y vx vy ax ay (dtClamp frameMs) s).2.2
      ≤ maxSpeed * maxSpeed ∧
    (integrate x y vx vy ax ay (dtClamp frameMs) s).1.1
      = x + (integrate x y vx vy ax ay (dtClamp frameMs) s).2.1 ∧
    (integrate x y vx vy ax ay (dtClamp frameMs) s).1.2
      = y + (integrate x y vx vy ax ay (dtClamp frameMs) s).2.2 := by
  set dt := dtClamp frameMs with hdt
  set u := vx * damping + ax * dt with hu
  set v := vy * damping + ay * dt with hv
  refine ⟨?_, ?_, ?_, rfl, ?_, rfl, rfl⟩
  · rw [hdt, dtClamp]
    apply le_min
    · norm_num
    · have h1 : (1 / 1000 : ℚ) = 0.001 := by norm_num
      rw [h1]
      exact le_max_left _ _
  · rw [hdt, dtClamp]
    exact le_trans (min_le_left _ _) (by norm_num)
  · rw [damping]; norm_num
  · by_cases hc : maxSpeed * maxSpeed < u * u + v * v
    · have hcc : (integrate x y vx vy ax ay dt s).2 = (u * (maxSpeed / s), v * (maxSpeed / s)) := by
        rw [show (integrate x y vx vy ax ay dt s).2 = clampSpeed u v s from rfl,
          clampSpeed, if_pos hc]
      clear_value u v
      rw [hcc]
      dsimp only
      have hsne : s ≠ 0 := by
        intro h0
        have huv : u * u + v * v = 0 := by rw [← hs, h0]; ring
        rw [huv] at hc
        rw [maxSpeed] at hc
        norm_num at hc
      have key : u * (maxSpeed / s) * (u * (maxSpeed / s)) + v * (maxSpeed / s) * (v * (maxSpeed / s))
          = maxSpeed * maxSpeed := by
        field_simp
        linear_combination (-(maxSpeed * maxSpeed)) * hs
      rw [key]
    · have hcc : (integrate x y vx vy ax ay dt s).2 = (u, v) := by
        rw [show (integrate x y vx vy ax ay dt s).2 = clampSpeed u v s from rfl,
          clampSpeed, if_neg hc]
      rw [hcc]
      exact le_of_not_lt hc

section
attribute [local semireducible] Rat.add Rat.mul Rat.inv Rat.sub Rat.ofScientific

/-- C4 counterexample: at position 0 with velocity 10, zero acceleration and a
50 ms frame (dt clamps to 0.05), the committed position is `0 + 8.6` — the
full new velocity — not `0 + 8.6 × dt = 0.43` as the claim's position update
("previous position advanced by the new velocity over the timestep") states.
The passed square root 8.6 is exact: the damped speed is 8.6. -/
theorem claim_C4_counterexample :
    ¬((integrate 0 0 10 0 0 0 (dtClamp 50) (86 / 10)).1.1
        = 0 + (integrate 0 0 10 0 0 0 (dtClamp 50) (86 / 10)).2.1 * dtClamp 50) := by
  decide

/-- Witness for the amended C4 in the speed-clamping branch: velocity
(300, 400), damped to (258, 344) of norm 430 > 180, is scaled back onto the
maximum speed; the square-root hypothesis is discharged exactly. -/
theorem claim_C4_semi_implicit_euler_witness :
    ((430 : ℚ) * 430
        = (300 * damping + 0 * dtClamp 50) * (300 * damping + 0 * dtClamp 50)
          + (400 * damping + 0 * dtClamp 50) * (400 * damping + 0 * dtClamp 50)) ∧
    (0 : ℚ) ≤ 430 ∧
    ((integrate 0 0 300 400 0 0 (dtClamp 50) 430).2.1 *
          (integrate 0 0 300 400 0 0 (dtClamp 50) 430).2.1 +
        (integrate 0 0 300 400 0 0 (dtClamp 50) 430).2.2 *
          (integrate 0 0 300 400 0 0 (dtClamp 50) 430).2.2
      ≤ maxSpeed * maxSpeed) ∧
    (integrate 0 0 300 400 0 0 (dtClamp 50) 430).1.1
      = 0 + (integrate 0 0 300 400 0 0 (dtClamp 50) 430).2.1 :=
  ⟨by decide, by decide,
    (claim_C4_semi_implicit_euler 0 0 300 400 0 0 50 430 (by decide) (by decide)).2.2.2.2.1,
    (claim_C4_semi_implicit_euler 0 0 300 400 0 0 50 430 (by decide) (by decide)).2.2.2.2.2.1⟩

end

/-! ### C7: spatial-hash bucket coverage of the separation radius -/

lemma agentRadius_ge_two (c : ℚ) : 2 ≤ agentRadius c := le_max_left _ _

lemma desiredSep_le_bucketSize (c : ℚ) : desiredSep c ≤ bucketSize c := by
  have hr := agentRadius_ge_two c
  calc desiredSep c = agentRadius c * 1.85 := rfl
    _ ≤ agentRadius c * 3 := by nlinarith
    _ ≤ bucketSize c := le_max_left _ _

lemma desiredSep_pos (c : ℚ) : 0 < desiredSep c := by
  have hr := agentRadius_ge_two c
  have : desiredSep c = agentRadius c * 1.85 := rfl
  nlinarith

lemma bucketSize_pos (c : ℚ) : 0 < bucketSize c :=
  lt_of_lt_of_le (desiredSep_pos c) (desiredSep_le_bucketSize c)

lemma floor_diff_le_one {a b bs : ℚ} (hbs : 0 < bs) (hab : |a - b| < bs) :
    |⌊a / bs⌋ - ⌊b / bs⌋| ≤ 1 := by
  have h1 : a / bs - b / bs < 1 := by
    rw [div_sub_div_same, div_lt_one hbs]
    exact lt_of_le_of_lt (le_abs_self _) hab
  have h2 : b / bs - a / bs < 1 := by
    rw [div_sub_div_same, div_lt_one hbs]
    refine lt_of_le_of_lt ?_ hab
    rw [abs_sub_comm]
    exact le_abs_self _
  have f1 : ⌊a / bs⌋ < ⌊b / bs⌋ + 2 := by
    rw [Int.floor_lt]
    push_cast
    have hfb := Int.lt_floor_add_one (b / bs)
    linarith
  have f2 : ⌊b / bs⌋ < ⌊a / bs⌋ + 2 := by
    rw [Int.floor_lt]
    push_cast
    have hfa := Int.lt_floor_add_one (a / bs)
    linarith
  rw [abs_le]
  omega

lemma clampZ_lipschitz (lo hi u v : Int) : |clampZ u lo hi - clampZ v lo hi| ≤ |u - v| := by
  simp only [clampZ]
  rcases abs_cases (u - v) with ⟨h1, _⟩ | ⟨h1, _⟩ <;>
    rcases abs_cases (max lo (min hi u) - max lo (min hi v)) with ⟨h2, _⟩ | ⟨h2, _⟩ <;>
      omega

lemma bucketIndex_close {bs : ℚ} (hbs : 0 < bs) (buckets : Int) {r1 r2 : ℚ}
    (h : |r1 - r2| < bs) :
    |bucketIndex bs buckets r1 - bucketIndex bs buckets r2| ≤ 1 :=
  le_trans (clampZ_lipschitz _ _ _ _) (floor_diff_le_one hbs h)

lemma bucketIndex_range (bs : ℚ) {buckets : Int} (h : 1 ≤ buckets) (r : ℚ) :
    0 ≤ bucketIndex bs buckets r ∧ bucketIndex bs buckets r ≤ buckets - 1 := by
  simp only [bucketIndex, clampZ]
  omega

lemma axis_close {dx dy d : ℚ} (hd : 0 < d) (h : dx * dx + dy * dy < d * d) :
    |dx| < d ∧ |dy| < d := by
  constructor <;>
    (rw [abs_lt]; constructor <;> nlinarith [mul_self_nonneg dx, mul_self_nonneg dy])

/-- C7: the bucket size is at least the desired separation distance (because
`max(3r, 0.6c) ≥ 3r ≥ 1.85r`), so two agents closer than the desired
separation get bucket indices differing by at most 1 on each axis; bucket
indices always lie in `[0, buckets-1]`, hence the 3×3 bucket scan around
either agent covers the other's bucket; and a scanned candidate at or beyond
the desired distance contributes exactly (0, 0) separation force — the force
is gated by the exact squared-distance check. -/
theorem claim_C7_separation_buckets (c : ℚ) (bX bY : Int) (hbX : 1 ≤ bX) (hbY : 1 ≤ bY)
    (ox oy x1 y1 x2 y2 : ℚ)
    (hclose : (x1 - x2) * (x1 - x2) + (y1 - y2) * (y1 - y2) < desiredSep c * desiredSep c) :
    desiredSep c ≤ bucketSize c ∧
    |bucketIndex (bucketSize c) bX (x1 - ox) - bucketIndex (bucketSize c) bX (x2 - ox)| ≤ 1 ∧
    |bucketIndex (bucketSize c) bY (y1 - oy) - bucketIndex (bucketSize c) bY (y2 - oy)| ≤ 1 ∧
    (0 ≤ bucketIndex (bucketSize c) bX (x1 - ox) ∧
      bucketIndex (bucketSize c) bX (x1 - ox) ≤ bX - 1) ∧
    (0 ≤ bucketIndex (bucketSize c) bY (y1 - oy) ∧
      bucketIndex (bucketSize c) bY (y1 - oy) ≤ bY - 1) ∧
    (∀ xj yj s : ℚ,
      desiredSep c * desiredSep c ≤ (x1 - xj) * (x1 - xj) + (y1 - yj) * (y1 - yj) →
      sepContribution (desiredSep c) x1 y1 xj yj s = (0, 0)) := by
  have hax := axis_close (desiredSep_pos c) hclose
  have hxd : |(x1 - ox) - (x2 - ox)| < bucketSize c := by
    have : (x1 - ox) - (x2 - ox) = x1 - x2 := by ring
    rw [this]
    exact lt_of_lt_of_le hax.1 (desiredSep_le_bucketSize c)
  have hyd : |(y1 - oy) - (y2 - oy)| < bucketSize c := by
    have : (y1 - oy) - (y2 - oy) = y1 - y2 := by ring
    rw [this]
    exact lt_of_lt_of_le hax.2 (desiredSep_le_bucketSize c)
  refine ⟨desiredSep_le_bucketSize c, bucketIndex_close (bucketSize_pos c) bX hxd,
    bucketIndex_close (bucketSize_pos c) bY hyd,
    bucketIndex_range _ hbX _, bucketIndex_range _ hbY _, ?_⟩
  intro xj yj s hfar
  have hneg : ¬(0.0001 < (x1 - xj) * (x1 - xj) + (y1 - yj) * (y1 - yj) ∧
      (x1 - xj) * (x1 - xj) + (y1 - yj) * (y1 - yj) < desiredSep c * desiredSep c) :=
    fun hcon => absurd hcon.2 (not_lt.mpr hfar)
  simp only [sepContribution]
  rw [if_neg hneg]

section
attribute [local semireducible] Rat.add Rat.mul Rat.inv Rat.sub Rat.ofScientific

/-- Witness for C7: cell size 10 (agent radius 2, desired separation 3.7,
bucket size 6), a 3×3 bucket grid, and two agents 2 apart. -/
theorem claim_C7_separation_buckets_witness :
    ((10 : ℚ) - 12) * (10 - 12) + (0 - 0) * ((0 : ℚ) - 0)
        < desiredSep 10 * desiredSep 10 ∧
    (desiredSep 10 ≤ bucketSize 10 ∧
      |bucketIndex (bucketSize 10) 3 (10 - 0) - bucketIndex (bucketSize 10) 3 (12 - 0)| ≤ 1 ∧
      |bucketIndex (bucketSize 10) 3 ((0 : ℚ) - 0) - bucketIndex (bucketSize 10) 3 ((0 : ℚ) - 0)| ≤ 1 ∧
      (0 ≤ bucketIndex (bucketSize 10) 3 (10 - 0) ∧
        bucketIndex (bucketSize 10) 3 (10 - 0) ≤ 3 - 1) ∧
      (0 ≤ bucketIndex (bucketSize 10) 3 ((0 : ℚ) - 0) ∧
        bucketIndex (bucketSize 10) 3 ((0 : ℚ) - 0) ≤ 3 - 1) ∧
      (∀ xj yj s : ℚ,
        desiredSep 10 * desiredSep 10 ≤ (10 - xj) * (10 - xj) + (0 - yj) * (0 - yj) →
        sepContribution (desiredSep 10) 10 0 xj yj s = (0, 0))) :=
  ⟨by decide,
    claim_C7_separation_buckets 10 3 3 (by decide) (by decide) 0 0 10 0 12 0 (by decide)⟩

end

/-! ### C8: wall-editing costs -/

lemma setWall_cost (g : FlowField) (x y : Int) (b : Bool) (j : Int) :
    (g.setWall x y b).cost j
      = if j = cellIdx g.width x y then (if b then 255 else 0) else g.cost j := rfl

lemma setWall_width (g : FlowField) (x y : Int) (b : Bool) :
    (g.setWall x y b).width = g.width := rfl

lemma setWall_height (g : FlowField) (x y : Int) (b : Bool) :
    (g.setWall x y b).height = g.height := rfl

lemma setWall_targetX (g : FlowField) (x y : Int) (b : Bool) :
    (g.setWall x y b).targetX = g.targetX := rfl

lemma setWall_targetY (g : FlowField) (x y : Int) (b : Bool) :
    (g.setWall x y b).targetY = g.targetY := rfl

/-- An edit that passes all three gates applies: wall write, conditional gold
decrement, synchronous regeneration. -/
lemma editAtCell_apply (f : FlowField) (gold : Int) (wa er : Bool) (gx gy : Int)
    (hb : f.inBounds gx gy = true) (hnt : ¬(gx = f.targetX ∧ gy = f.targetY))
    (hgate : ¬(wa = true ∧ er = false ∧ gold ≤ 0)) :
    editAtCell f gold wa er gx gy
      = ((f.setWall gx gy (!er)).generate f.targetX f.targetY,
          if wa = true ∧ er = false then max 0 (gold - 1) else gold) := by
  rw [editAtCell, if_neg (by simp [hb]), if_neg hnt, if_neg hgate]
  rfl

/-- C8: at a valid (in-bounds, non-target) cell — during an Active wave a
wall-placing edit with zero gold is rejected with no state change; with
positive gold it places the wall (cost 255) and decreases gold by exactly one;
an erase edit never costs gold and is never rejected for lack of gold (it
clears the cell for every gold value); and with no Active wave the edit is
free (gold unchanged). -/
theorem claim_C8_edit_costs (f : FlowField) (gx gy : Int)
    (hin : f.inBounds gx gy = true) (hnt : ¬(gx = f.targetX ∧ gy = f.targetY)) :
    editAtCell f 0 true false gx gy = (f, 0) ∧
    (∀ gold : Int, 0 < gold →
      (editAtCell f gold true false gx gy).2 = gold - 1 ∧
      (editAtCell f gold true false gx gy).1.cost
        ((editAtCell f gold true false gx gy).1.idx gx gy) = 255) ∧
    (∀ gold : Int,
      (editAtCell f gold true true gx gy).2 = gold ∧
      (editAtCell f gold true true gx gy).1.cost
        ((editAtCell f gold true true gx gy).1.idx gx gy) = 0) ∧
    (∀ (gold : Int) (er : Bool), (editAtCell f gold false er gx gy).2 = gold) := by
  refine ⟨?_, ?_, ?_, ?_⟩
  · rw [editAtCell]
    split_ifs <;> first | rfl | simp_all
  · intro gold hg
    have hgate : ¬(true = true ∧ false = false ∧ gold ≤ 0) := by
      rintro ⟨-, -, hle⟩
      omega
    rw [editAtCell_apply f gold true false gx gy hin hnt hgate]
    constructor
    · dsimp only
      rw [if_pos ⟨rfl, rfl⟩]
      omega
    · dsimp only
      rw [FlowField.idx, generate_width, generate_cost, setWall_width, setWall_cost]
      simp
  · intro gold
    have hgate : ¬(true = true ∧ true = false ∧ gold ≤ 0) := by
      rintro ⟨-, hc, -⟩
      exact Bool.noConfusion hc
    rw [editAtCell_apply f gold true true gx gy hin hnt hgate]
    constructor
    · dsimp only
      rw [if_neg]
      rintro ⟨-, hc⟩
      exact Bool.noConfusion hc
    · dsimp only
      rw [FlowField.idx, generate_width, generate_cost, setWall_width, setWall_cost]
      simp
  · intro gold er
    have hgate : ¬(false = true ∧ er = false ∧ gold ≤ 0) := by
      rintro ⟨hc, -, -⟩
      exact Bool.noConfusion hc
    rw [editAtCell_apply f gold false er gx gy hin hnt hgate]
    dsimp only
    rw [if_neg]
    rintro ⟨hc, -⟩
    exact Bool.noConfusion hc

/-- Witness for C8 at cell (0, 0) of the generated 3×3 demo field whose
target is (1, 1). -/
theorem claim_C8_edit_costs_witness :
    (demoOpen3.generate 1 1).inBounds 0 0 = true ∧
    (editAtCell (demoOpen3.generate 1 1) 0 true false 0 0 = (demoOpen3.generate 1 1, 0) ∧
      (∀ gold : Int, 0 < gold →
        (editAtCell (demoOpen3.generate 1 1) gold true false 0 0).2 = gold - 1 ∧
        (editAtCell (demoOpen3.generate 1 1) gold true false 0 0).1.cost
          ((editAtCell (demoOpen3.generate 1 1) gold true false 0 0).1.idx 0 0) = 255) ∧
      (∀ gold : Int,
        (editAtCell (demoOpen3.generate 1 1) gold true true 0 0).2 = gold ∧
        (editAtCell (demoOpen3.generate 1 1) gold true true 0 0).1.cost
          ((editAtCell (demoOpen3.generate 1 1) gold true true 0 0).1.idx 0 0) = 0) ∧
      (∀ (gold : Int) (er : Bool),
        (editAtCell (demoOpen3.generate 1 1) gold false er 0 0).2 = gold)) :=
  ⟨by decide, claim_C8_edit_costs (demoOpen3.generate 1 1) 0 0 (by decide) (by decide)⟩

/-! ### `ensureBaseAndEdgeOpen`: only zeroes are written, and the border and
base cells end up walkable -/

lemma zeroExtends_refl (g : FlowField) : zeroExtends g g :=
  ⟨rfl, rfl, rfl, rfl, fun _ => Or.inl rfl, fun _ h => h⟩

lemma zeroExtends_trans {a b c : FlowField} (h1 : zeroExtends a b) (h2 : zeroExtends b c) :
    zeroExtends a c := by
  obtain ⟨w1, e1, t1, u1, c1, z1⟩ := h1
  obtain ⟨w2, e2, t2, u2, c2, z2⟩ := h2
  refine ⟨w2.trans w1, e2.trans e1, t2.trans t1, u2.trans u1, ?_, fun j hj => z2 j (z1 j hj)⟩
  intro j
  rcases c2 j with h | h
  · rw [h]; exact c1 j
  · exact Or.inr h

lemma setWall_false_zeroExtends (g : FlowField) (x y : Int) :
    zeroExtends g (g.setWall x y false) := by
  refine ⟨rfl, rfl, rfl, rfl, ?_, ?_⟩
  · intro j
    rw [setWall_cost]
    by_cases hj : j = cellIdx g.width x y
    · rw [if_pos hj]
      exact Or.inr (by simp)
    · rw [if_neg hj]
      exact Or.inl rfl
  · intro j hj
    rw [setWall_cost]
    by_cases hj' : j = cellIdx g.width x y
    · rw [if_pos hj']
      simp
    · rw [if_neg hj']
      exact hj

lemma openCell_zeroExtends (tx ty : Int) (g : FlowField) (d : Int × Int) :
    zeroExtends g (openCell tx ty g d) := by
  rw [openCell]
  split_ifs
  · exact setWall_false_zeroExtends g _ _
  · exact zeroExtends_refl g

lemma openRow_zeroExtends (g : FlowField) (x : Nat) : zeroExtends g (openRow g x) :=
  zeroExtends_trans (setWall_false_zeroExtends g _ _) (setWall_false_zeroExtends _ _ _)

lemma openColumn_zeroExtends (g : FlowField) (y : Nat) : zeroExtends g (openColumn g y) :=
  zeroExtends_trans (setWall_false_zeroExtends g _ _) (setWall_false_zeroExtends _ _ _)

lemma foldl_zeroExtends {α : Type} (step : FlowField → α → FlowField)
    (hstep : ∀ g a, zeroExtends g (step g a)) :
    ∀ (L : List α) (g : FlowField), zeroExtends g (L.foldl step g) := by
  intro L
  induction L with
  | nil => intro g; exact zeroExtends_refl g
  | cons a L ih => intro g; exact zeroExtends_trans (hstep g a) (ih (step g a))

lemma fold_openCell_zero (tx ty : Int) :
    ∀ (L : List (Int × Int)) (g : FlowField) (d : Int × Int), d ∈ L →
      g.inBounds (tx + d.1) (ty + d.2) = true →
      (L.foldl (openCell tx ty) g).cost (cellIdx g.width (tx + d.1) (ty + d.2)) = 0 := by
  intro L
  induction L with
  | nil =>
    intro g d hd
    exact absurd hd (List.not_mem_nil d)
  | cons d0 L ih =>
    intro g d hd hb
    have hfold : ((d0 :: L).foldl (openCell tx ty) g)
        = L.foldl (openCell tx ty) (openCell tx ty g d0) := rfl
    have hze1 : zeroExtends g (openCell tx ty g d0) := openCell_zeroExtends tx ty g d0
    rcases List.mem_cons.mp hd with heq | hmem
    · subst heq
      have hc1 : (openCell tx ty g d).cost (cellIdx g.width (tx + d.1) (ty + d.2)) = 0 := by
        rw [openCell, if_pos hb, setWall_cost]
        simp [FlowField.idx]
      have hze2 := foldl_zeroExtends (openCell tx ty) (openCell_zeroExtends tx ty) L
        (openCell tx ty g d)
      rw [hfold]
      exact hze2.2.2.2.2.2 _ hc1
    · have hb1 : (openCell tx ty g d0).inBounds (tx + d.1) (ty + d.2) = true := by
        rw [FlowField.inBounds, hze1.1, hze1.2.1]
        exact hb
      have hres := ih (openCell tx ty g d0) d hmem hb1
      rw [hze1.1] at hres
      rw [hfold]
      exact hres

lemma fold_openRow_zero :
    ∀ (L : List Nat) (g : FlowField) (x : Nat), x ∈ L →
      (L.foldl openRow g).cost (cellIdx g.width (x : Int) 0) = 0 ∧
      (L.foldl openRow g).cost (cellIdx g.width (x : Int) ((g.height : Int) - 1)) = 0 := by
  intro L
  induction L with
  | nil =>
    intro g x hx
    exact absurd hx (List.not_mem_nil x)
  | cons x0 L ih =>
    intro g x hx
    have hfold : ((x0 :: L).foldl openRow g) = L.foldl openRow (openRow g x0) := rfl
    have hze1 : zeroExtends g (openRow g x0) := openRow_zeroExtends g x0
    rcases List.mem_cons.mp hx with heq | hmem
    · subst heq
      have hz : ∀ j, (j = cellIdx g.width (x : Int) 0 ∨
          j = cellIdx g.width (x : Int) ((g.height : Int) - 1)) →
          (openRow g x).cost j = 0 := by
        intro j hj
        rw [openRow, setWall_cost, setWall_cost]
        simp only [setWall_width, setWall_height, FlowField.idx]
        rcases hj with hj | hj <;> split_ifs <;> simp_all
      have hze2 := foldl_zeroExtends openRow openRow_zeroExtends L (openRow g x)
      rw [hfold]
      exact ⟨hze2.2.2.2.2.2 _ (hz _ (Or.inl rfl)), hze2.2.2.2.2.2 _ (hz _ (Or.inr rfl))⟩
    · have hres := ih (openRow g x0) x hmem
      rw [hze1.1, hze1.2.1] at hres
      rw [hfold]
      exact hres

lemma fold_openColumn_zero :
    ∀ (L : List Nat) (g : FlowField) (y : Nat), y ∈ L →
      (L.foldl openColumn g).cost (cellIdx g.width 0 (y : Int)) = 0 ∧
      (L.foldl openColumn g).cost (cellIdx g.width ((g.width : Int) - 1) (y : Int)) = 0 := by
  intro L
  induction L with
  | nil =>
    intro g y hy
    exact absurd hy (List.not_mem_nil y)
  | cons y0 L ih =>
    intro g y hy
    have hfold : ((y0 :: L).foldl openColumn g) = L.foldl openColumn (openColumn g y0) := rfl
    have hze1 : zeroExtends g (openColumn g y0) := openColumn_zeroExtends g y0
    rcases List.mem_cons.mp hy with heq | hmem
    · subst heq
      have hz : ∀ j, (j = cellIdx g.width 0 (y : Int) ∨
          j = cellIdx g.width ((g.width : Int) - 1) (y : Int)) →
          (openColumn g y).cost j = 0 := by
        intro j hj
        rw [openColumn, setWall_cost, setWall_cost]
        simp only [setWall_width, setWall_height, FlowField.idx]
        rcases hj with hj | hj <;> split_ifs <;> simp_all
      have hze2 := foldl_zeroExtends openColumn openColumn_zeroExtends L (openColumn g y)
      rw [hfold]
      exact ⟨hze2.2.2.2.2.2 _ (hz _ (Or.inl rfl)), hze2.2.2.2.2.2 _ (hz _ (Or.inr rfl))⟩
    · have hres := ih (openColumn g y0) y hmem
      rw [hze1.1] at hres
      rw [hfold]
      exact hres

lemma ensureOpen_spec (f : FlowField) :
    zeroExtends f (ensureBaseAndEdgeOpen f) ∧
    (∀ x y, inB f.width f.height x y = true → onBorderOrBase f.width f.height x y →
      (ensureBaseAndEdgeOpen f).cost (cellIdx f.width x y) = 0) := by
  have hze1 : zeroExtends f (nbr9.foldl (openCell ((f.width / 2 : Nat) : Int)
      ((f.height / 2 : Nat) : Int)) f) :=
    foldl_zeroExtends _ (openCell_zeroExtends _ _) nbr9 f
  set f1 := nbr9.foldl (openCell ((f.width / 2 : Nat) : Int) ((f.height / 2 : Nat) : Int)) f
    with hf1
  have hze2 : zeroExtends f1 ((List.range f1.width).foldl openRow f1) :=
    foldl_zeroExtends _ openRow_zeroExtends _ f1
  set f2 := (List.range f1.width).foldl openRow f1 with hf2
  have hze3 : zeroExtends f2 ((List.range f2.height).foldl openColumn f2) :=
    foldl_zeroExtends _ openColumn_zeroExtends _ f2
  have hEq : ensureBaseAndEdgeOpen f = (List.range f2.height).foldl openColumn f2 := rfl
  have hzeAll : zeroExtends f (ensureBaseAndEdgeOpen f) := by
    rw [hEq]
    exact zeroExtends_trans hze1 (zeroExtends_trans hze2 hze3)
  refine ⟨hzeAll, ?_⟩
  intro x y hb hregion
  have hw1 : f1.width = f.width := hze1.1
  have hh1 : f1.height = f.height := hze1.2.1
  have hw2 : f2.width = f.width := hze2.1.trans hw1
  have hh2 : f2.height = f.height := hze2.2.1.trans hh1
  rw [inB_iff] at hb
  obtain ⟨hx0, hxw, hy0, hyh⟩ := hb
  rcases hregion with hx | hx | hy | hy | hcenter
  · -- x = 0: vertical border loop
    subst hx
    have hyn : y = ((y.toNat : Nat) : Int) := by omega
    have hmem : y.toNat ∈ List.range f2.height := by
      rw [List.mem_range]
      omega
    have hres := (fold_openColumn_zero (List.range f2.height) f2 y.toNat hmem).1
    rw [hw2] at hres
    rw [hEq, hyn]
    exact hres
  · -- x = w - 1
    subst hx
    have hyn : y = ((y.toNat : Nat) : Int) := by omega
    have hmem : y.toNat ∈ List.range f2.height := by
      rw [List.mem_range]
      omega
    have hres := (fold_openColumn_zero (List.range f2.height) f2 y.toNat hmem).2
    rw [hw2] at hres
    rw [hEq, hyn]
    exact hres
  · -- y = 0: horizontal border loop, preserved by the column loop
    subst hy
    have hxn : x = ((x.toNat : Nat) : Int) := by omega
    have hmem : x.toNat ∈ List.range f1.width := by
      rw [List.mem_range]
      omega
    have hres := (fold_openRow_zero (List.range f1.width) f1 x.toNat hmem).1
    have hcc : cellIdx f1.width ((x.toNat : Nat) : Int) 0
        = cellIdx f.width ((x.toNat : Nat) : Int) 0 := by rw [hw1]
    rw [hcc] at hres
    rw [hEq, hxn]
    exact hze3.2.2.2.2.2 _ hres
  · -- y = h - 1
    subst hy
    have hxn : x = ((x.toNat : Nat) : Int) := by omega
    have hmem : x.toNat ∈ List.range f1.width := by
      rw [List.mem_range]
      omega
    have hres := (fold_openRow_zero (List.range f1.width) f1 x.toNat hmem).2
    have hcc : cellIdx f1.width ((x.toNat : Nat) : Int) ((f1.height : Int) - 1)
        = cellIdx f.width ((x.toNat : Nat) : Int) ((f.height : Int) - 1) := by
      rw [hw1, hh1]
    rw [hcc] at hres
    rw [hEq, hxn]
    exact hze3.2.2.2.2.2 _ hres
  · -- 3×3 block around the centre
    obtain ⟨hcx1, hcx2, hcy1, hcy2⟩ := hcenter
    have hbxy : f.inBounds (((f.width / 2 : Nat) : Int) + (x - ((f.width / 2 : Nat) : Int)))
        (((f.height / 2 : Nat) : Int) + (y - ((f.height / 2 : Nat) : Int))) = true := by
      rw [FlowField.inBounds, inB_iff]
      omega
    have hmem : (x - ((f.width / 2 : Nat) : Int), y - ((f.height / 2 : Nat) : Int)) ∈ nbr9 := by
      have hdx : x - ((f.width / 2 : Nat) : Int) = -1 ∨
          x - ((f.width / 2 : Nat) : Int) = 0 ∨ x - ((f.width / 2 : Nat) : Int) = 1 := by
        omega
      have hdy : y - ((f.height / 2 : Nat) : Int) = -1 ∨
          y - ((f.height / 2 : Nat) : Int) = 0 ∨ y - ((f.height / 2 : Nat) : Int) = 1 := by
        omega
      rcases hdx with h | h | h <;> rcases hdy with h' | h' | h' <;>
        rw [h, h'] <;> decide
    have hres := fold_openCell_zero ((f.width / 2 : Nat) : Int) ((f.height / 2 : Nat) : Int)
      nbr9 f _ hmem hbxy
    have hco : ((f.width / 2 : Nat) : Int) + (x - ((f.width / 2 : Nat) : Int)) = x := by ring
    have hco' : ((f.height / 2 : Nat) : Int) + (y - ((f.height / 2 : Nat) : Int)) = y := by ring
    rw [hco, hco'] at hres
    rw [hEq]
    exact hze3.2.2.2.2.2 _ (hze2.2.2.2.2.2 _ hres)

/-! ### C9: target cell is walkable in every reachable state -/

/-- An edit aimed at the target cell is rejected before any mutation. -/
lemma editAtCell_target (f : FlowField) (gold : Int) (wa er : Bool) :
    editAtCell f gold wa er f.targetX f.targetY = (f, gold) := by
  rcases Bool.eq_false_or_eq_true (f.inBounds f.targetX f.targetY) with hb | hb
  · rw [editAtCell, if_neg (by rw [hb]; simp), if_pos ⟨rfl, rfl⟩]
  · rw [editAtCell, if_pos (by rw [hb]; rfl)]

lemma targetInv_inBounds (f : FlowField) (hI : targetInv f) :
    inB f.width f.height f.targetX f.targetY = true := by
  obtain ⟨hw, hh, htx, hty, -⟩ := hI
  rw [htx, hty, inB_iff]
  refine ⟨?_, ?_, ?_, ?_⟩ <;> omega

lemma editAtCell_targetInv (f : FlowField) (gold : Int) (wa er : Bool) (gx gy : Int)
    (hI : targetInv f) : targetInv (editAtCell f gold wa er gx gy).1 := by
  rw [editAtCell]
  by_cases h1 : (!f.inBounds gx gy) = true
  · rw [if_pos h1]; exact hI
  · rw [if_neg h1]
    by_cases h2 : gx = f.targetX ∧ gy = f.targetY
    · rw [if_pos h2]; exact hI
    · rw [if_neg h2]
      by_cases h3 : wa = true ∧ er = false ∧ gold ≤ 0
      · rw [if_pos h3]; exact hI
      · rw [if_neg h3]
        dsimp only
        have hbxy : f.inBounds gx gy = true := by
          rcases Bool.eq_false_or_eq_true (f.inBounds gx gy) with hb | hb
          · exact hb
          · exact absurd (by rw [hb]; rfl) h1
        have hbt : inB f.width f.height f.targetX f.targetY = true := targetInv_inBounds f hI
        obtain ⟨hw, hh, htx, hty, hc⟩ := hI
        refine ⟨?_, ?_, ?_, ?_, ?_⟩
        · rw [generate_width, setWall_width]; exact hw
        · rw [generate_height, setWall_height]; exact hh
        · rw [generate_targetX, setWall_targetX, generate_width, setWall_width]; exact htx
        · rw [generate_targetY, setWall_targetY, generate_height, setWall_height]; exact hty
        · rw [generate_cost, generate_width, setWall_width, generate_targetX,
            setWall_targetX, generate_targetY, setWall_targetY, setWall_cost]
          rw [if_neg]
          · exact hc
          · intro heq
            have := cellIdx_inj hbt hbxy heq
            exact h2 ⟨this.1.symm, this.2.symm⟩

/-- The three terrain paths all call `ensureBaseAndEdgeOpen` and regenerate
from the centre, leaving the invariant intact. -/
lemma terrain_path_targetInv (f1 : FlowField) (hw : 0 < f1.width) (hh : 0 < f1.height) :
    targetInv ((ensureBaseAndEdgeOpen f1).generate
      (((ensureBaseAndEdgeOpen f1).width / 2 : Nat) : Int)
      (((ensureBaseAndEdgeOpen f1).height / 2 : Nat) : Int)) := by
  have hsp := ensureOpen_spec f1
  have hw2 : (ensureBaseAndEdgeOpen f1).width = f1.width := hsp.1.1
  have hh2 : (ensureBaseAndEdgeOpen f1).height = f1.height := hsp.1.2.1
  refine ⟨?_, ?_, ?_, ?_, ?_⟩
  · rw [generate_width, hw2]; exact hw
  · rw [generate_height, hh2]; exact hh
  · rw [generate_targetX, generate_width]
  · rw [generate_targetY, generate_height]
  · rw [generate_cost, generate_width, generate_targetX, generate_targetY]
    have hzero := hsp.2 ((f1.width / 2 : Nat) : Int) ((f1.height / 2 : Nat) : Int)
      (by rw [inB_iff]; refine ⟨?_, ?_, ?_, ?_⟩ <;> omega)
      (Or.inr (Or.inr (Or.inr (Or.inr
        ⟨by omega, by omega, by omega, by omega⟩))))
    rw [hw2, hh2, hzero]
    norm_num

lemma applyOp_targetInv (st : FlowField × Int) (op : CanvasOp) (hI : targetInv st.1) :
    targetInv (applyOp st op).1 := by
  cases op with
  | edit wa er gx gy => exact editAtCell_targetInv st.1 st.2 wa er gx gy hI
  | pilotApply len grid =>
      dsimp only [applyOp]
      exact terrain_path_targetInv _ hI.1 hI.2.1
  | pilotFail =>
      dsimp only [applyOp]
      exact terrain_path_targetInv _ hI.1 hI.2.1
  | pilotClear =>
      dsimp only [applyOp]
      exact terrain_path_targetInv _ hI.1 hI.2.1
  | resize n =>
      dsimp only [applyOp]
      refine ⟨?_, ?_, ?_, ?_, ?_⟩
      · rw [generate_width]
        show 0 < (max 24 (min 128 n)).toNat
        omega
      · rw [generate_height]
        show 0 < (max 24 (min 128 n)).toNat
        omega
      · rw [generate_targetX, generate_width]
        rfl
      · rw [generate_targetY, generate_height]
        rfl
      · rw [generate_cost]
        exact fun hcon => by simp [mkFlowField] at hcon
  | earnGold => exact hI

lemma initCanvas_targetInv (n : Nat) (hn : 0 < n) : targetInv (initCanvas n).1 := by
  rw [initCanvas]
  dsimp only
  refine ⟨?_, ?_, ?_, ?_, ?_⟩
  · rw [generate_width]; exact hn
  · rw [generate_height]; exact hn
  · rw [generate_targetX, generate_width]
    rfl
  · rw [generate_targetY, generate_height]
    rfl
  · rw [generate_cost]
    exact fun hcon => by simp [mkFlowField] at hcon

lemma foldOps_targetInv : ∀ (ops : List CanvasOp) (st : FlowField × Int), targetInv st.1 →
    targetInv (ops.foldl applyOp st).1 := by
  intro ops
  induction ops with
  | nil => intro st hI; exact hI
  | cons op ops ih => intro st hI; exact ih _ (applyOp_targetInv st op hI)

/-- C9: under every sequence of canvas operations (pointer wall edits, the
three terrain-application paths, resizes, combat gold awards) starting from
the mounted canvas, the target cell's cost never becomes 255; moreover a
pointer edit aimed at the target cell is always rejected before any
mutation. -/
theorem claim_C9_target_never_wall (n : Nat) (hn : 0 < n) (ops : List CanvasOp) :
    ((ops.foldl applyOp (initCanvas n)).1.cost
        ((ops.foldl applyOp (initCanvas n)).1.idx
          (ops.foldl applyOp (initCanvas n)).1.targetX
          (ops.foldl applyOp (initCanvas n)).1.targetY) ≠ 255) ∧
    (∀ (gold : Int) (wa er : Bool),
      editAtCell (ops.foldl applyOp (initCanvas n)).1 gold wa er
          (ops.foldl applyOp (initCanvas n)).1.targetX
          (ops.foldl applyOp (initCanvas n)).1.targetY
        = ((ops.foldl applyOp (initCanvas n)).1, gold)) := by
  have hI := foldOps_targetInv ops (initCanvas n) (initCanvas_targetInv n hn)
  constructor
  · rw [FlowField.idx]
    exact hI.2.2.2.2
  · intro gold wa er
    exact editAtCell_target _ gold wa er

/-- Witness for C9: 4×4 grid with a wall edit, a failed terrain fetch, a
resize and a gold award. -/
theorem claim_C9_target_never_wall_witness :
    0 < 4 ∧
    (([CanvasOp.edit true false 1 1, CanvasOp.pilotFail,
        CanvasOp.resize 30, CanvasOp.earnGold].foldl applyOp (initCanvas 4)).1.cost
        (([CanvasOp.edit true false 1 1, CanvasOp.pilotFail,
            CanvasOp.resize 30, CanvasOp.earnGold].foldl applyOp (initCanvas 4)).1.idx
          ([CanvasOp.edit true false 1 1, CanvasOp.pilotFail,
              CanvasOp.resize 30, CanvasOp.earnGold].foldl applyOp (initCanvas 4)).1.targetX
          ([CanvasOp.edit true false 1 1, CanvasOp.pilotFail,
              CanvasOp.resize 30, CanvasOp.earnGold].foldl applyOp (initCanvas 4)).1.targetY)
        ≠ 255) ∧
    (∀ (gold : Int) (wa er : Bool),
      editAtCell ([CanvasOp.edit true false 1 1, CanvasOp.pilotFail,
            CanvasOp.resize 30, CanvasOp.earnGold].foldl applyOp (initCanvas 4)).1 gold wa er
          ([CanvasOp.edit true false 1 1, CanvasOp.pilotFail,
              CanvasOp.resize 30, CanvasOp.earnGold].foldl applyOp (initCanvas 4)).1.targetX
          ([CanvasOp.edit true false 1 1, CanvasOp.pilotFail,
              CanvasOp.resize 30, CanvasOp.earnGold].foldl applyOp (initCanvas 4)).1.targetY
        = (([CanvasOp.edit true false 1 1, CanvasOp.pilotFail,
            CanvasOp.resize 30, CanvasOp.earnGold].foldl applyOp (initCanvas 4)).1, gold)) :=
  have h := claim_C9_target_never_wall 4 (by decide)
    [CanvasOp.edit true false 1 1, CanvasOp.pilotFail, CanvasOp.resize 30, CanvasOp.earnGold]
  ⟨by decide, h.1, h.2⟩

/-- C10: whenever terrain is applied or reset — OSM grid delivered (of any
length and contents), fetch failure, pilot cleared — every border cell and
the 3×3 block around the grid centre is walkable (cost 0) in the state the
flow field is regenerated from; after a resize the entire fresh grid is
walkable.  Hence the base cell and all edge cells are never walls regardless
of the fetched cost array. -/
theorem claim_C10_terrain_opens_base_and_edges (f : FlowField) (gold : Int) (len : Nat)
    (grid : Int → Nat) (n : Int) :
    (∀ x y, inB f.width f.height x y = true → onBorderOrBase f.width f.height x y →
      (applyOp (f, gold) (CanvasOp.pilotApply len grid)).1.cost (cellIdx f.width x y) = 0) ∧
    (∀ x y, inB f.width f.height x y = true → onBorderOrBase f.width f.height x y →
      (applyOp (f, gold) CanvasOp.pilotFail).1.cost (cellIdx f.width x y) = 0) ∧
    (∀ x y, inB f.width f.height x y = true → onBorderOrBase f.width f.height x y →
      (applyOp (f, gold) CanvasOp.pilotClear).1.cost (cellIdx f.width x y) = 0) ∧
    (∀ j : Int, (applyOp (f, gold) (CanvasOp.resize n)).1.cost j = 0) := by
  refine ⟨?_, ?_, ?_, ?_⟩
  · intro x y hb hregion
    dsimp only [applyOp]
    rw [generate_cost]
    exact (ensureOpen_spec
      { f with cost := if len = f.width * f.height then grid else fun _ => 0 }).2 x y hb hregion
  · intro x y hb hregion
    dsimp only [applyOp]
    rw [generate_cost]
    exact (ensureOpen_spec { f with cost := fun _ => 0 }).2 x y hb hregion
  · intro x y hb hregion
    dsimp only [applyOp]
    rw [generate_cost]
    exact (ensureOpen_spec { f with cost := fun _ => 0 }).2 x y hb hregion
  · intro j
    dsimp only [applyOp]
    rw [generate_cost]
    rfl

end ZTide
